import Mathlib

/-!
Verification development for the SEC EDGAR 13F holdings fetcher
(`fetch_13f.py`).

The Python source is shallowly embedded: network effects are modelled by
explicit oracles (one outcome per attempted request), Python `dict`s by
structures, Python exceptions by `Except`/sum types, Python `int` by `Int`,
Python `float` weights by `Rat` (the float rounding artifacts of `round(x, 2)`
are idealized to exact rational banker's rounding, which no theorem below
depends on).  Python's stable `list.sort` is modelled by `List.insertionSort`,
which is likewise stable for a total preorder, so produces the same list.
-/

namespace ThirteenF

/-! ### Python primitives -/

/-- Digit-string to number; `none` when the character list is empty or holds a
non-digit.  Mirrors the digit part of Python `int(str)`. -/
def digitsToNat (ds : List Char) : Option Nat :=
  if ds = [] then none
  else if ds.all Char.isDigit then
    some (ds.foldl (fun n c => n * 10 + (c.toNat - '0'.toNat)) 0)
  else none

/-- Python `s.strip()`: drop leading and trailing whitespace. -/
def pyStrip (s : String) : String :=
  ⟨((s.toList.dropWhile Char.isWhitespace).reverse.dropWhile
      Char.isWhitespace).reverse⟩

/-- Python `int(s)`: strip whitespace, optional sign, digits; `none` models a
raised `ValueError`.  (Numeric-literal underscore grouping is not modelled;
no claim exercises it.) -/
def pyInt (s : String) : Option Int :=
  match (pyStrip s).toList with
  | '+' :: ds => (digitsToNat ds).map (fun n => (n : Int))
  | '-' :: ds => (digitsToNat ds).map (fun n => -(n : Int))
  | ds => (digitsToNat ds).map (fun n => (n : Int))

/-- Round-half-to-even on rationals, the idealization of Python `round`. -/
def roundHalfEven (q : Rat) : Int :=
  let f := ⌊q⌋
  let r := q - (f : Rat)
  if r < 1/2 then f
  else if 1/2 < r then f + 1
  else if f % 2 = 0 then f else f + 1

/-- Python `round(q, 2)` on the rational idealization. -/
def pyRound2 (q : Rat) : Rat := (roundHalfEven (q * 100) : Rat) / 100

/-- Python `needle in hay` on character lists. -/
def hasSubstr (needle : List Char) : List Char → Bool
  | [] => needle.isEmpty
  | c :: rest => needle.isPrefixOf (c :: rest) || hasSubstr needle rest

/-- Python `needle in hay` on strings. -/
def strContains (hay needle : String) : Bool :=
  hasSubstr needle.toList hay.toList

/-- Python `s.lower()` (ASCII; upstream names are ASCII). -/
def strLower (s : String) : String := ⟨s.toList.map Char.toLower⟩

/-- Python `s.upper()` (ASCII). -/
def strUpper (s : String) : String := ⟨s.toList.map Char.toUpper⟩

/-- Python `s.replace("-", "")`: for a single-character pattern this is
exactly dropping every occurrence of that character. -/
def stripDashes (s : String) : String := ⟨s.toList.filter (fun c => c ≠ '-')⟩

/-! ### Transport: `fetch_url`

`fetch_url(url, max_retries=3)` loops `for attempt in range(max_retries)`.
The network is an oracle `env : Nat → AttemptOutcome` giving the outcome of
each attempt (attempt numbers as in the Python loop).  A successful attempt's
payload models the response bytes after the transparent gzip decompression of
the source (decompression transforms, never fails, so it is folded into the
oracle's payload).  The embedding also counts the attempts actually made, so
that "retries" claims are statable. -/

/-- Outcome of one attempt inside `fetch_url`'s loop body. -/
inductive AttemptOutcome where
  | success (data : List Nat)
  | httpError (code : Nat)
  | otherError (msg : String)
deriving DecidableEq

/-- Exception propagated out of `fetch_url` (`HTTPError` re-raised, or any
other exception re-raised on the last attempt). -/
inductive FetchErr where
  | http (code : Nat)
  | other (msg : String)
deriving DecidableEq

/-- A `fetch_url` call either returns bytes or raises. -/
inductive FetchResult where
  | ok (data : List Nat)
  | raised (e : FetchErr)
deriving DecidableEq

/-- The `for attempt in range(max_retries)` loop of `fetch_url`, with the
number of attempts performed.  `fuel` is the number of loop iterations left
(`max_retries - attempt`); when it reaches `0` the loop falls through to
`return b""`. -/
def fetchAux (env : Nat → AttemptOutcome) (max_retries : Nat) :
    Nat → Nat → FetchResult × Nat
  | _, 0 => (.ok [], 0)
  | attempt, fuel + 1 =>
    match env attempt with
    | .success data => (.ok data, 1)
    | .httpError code =>
      if code = 429 then
        let p := fetchAux env max_retries (attempt + 1) fuel
        (p.1, p.2 + 1)
      else (.raised (.http code), 1)
    | .otherError msg =>
      if attempt < max_retries - 1 then
        let p := fetchAux env max_retries (attempt + 1) fuel
        (p.1, p.2 + 1)
      else (.raised (.other msg), 1)

/-- `fetch_url` together with the number of attempts it made. -/
def fetch_url_traced (env : Nat → AttemptOutcome) (max_retries : Nat := 3) :
    FetchResult × Nat :=
  fetchAux env max_retries 0 max_retries

/-- `fetch_url(url, max_retries)` under the attempt oracle `env`. -/
def fetch_url (env : Nat → AttemptOutcome) (max_retries : Nat := 3) :
    FetchResult :=
  (fetch_url_traced env max_retries).1

theorem fetchAux_count_le (env : Nat → AttemptOutcome) (m : Nat) :
    ∀ fuel attempt, (fetchAux env m attempt fuel).2 ≤ fuel := by
  intro fuel
  induction fuel with
  | zero => intro attempt; simp [fetchAux]
  | succ f ih =>
    intro attempt
    simp only [fetchAux]
    cases env attempt with
    | success data => simp
    | httpError code =>
      by_cases h : code = 429 <;> simp [h]
      exact ih (attempt + 1)
    | otherError msg =>
      by_cases h : attempt < m - 1 <;> simp [h]
      exact ih (attempt + 1)

theorem fetchAux_succ_of_success {env : Nat → AttemptOutcome} {a : Nat}
    (m f : Nat) {d : List Nat} (h : env a = .success d) :
    fetchAux env m a (f + 1) = (.ok d, 1) := by
  simp [fetchAux, h]

theorem fetchAux_succ_of_429 {env : Nat → AttemptOutcome} {a : Nat}
    (m f : Nat) (h : env a = .httpError 429) :
    fetchAux env m a (f + 1) =
      ((fetchAux env m (a + 1) f).1, (fetchAux env m (a + 1) f).2 + 1) := by
  simp [fetchAux, h]

theorem fetchAux_succ_of_http {env : Nat → AttemptOutcome} {a : Nat}
    (m f : Nat) {c : Nat} (h : env a = .httpError c) (hc : c ≠ 429) :
    fetchAux env m a (f + 1) = (.raised (.http c), 1) := by
  simp [fetchAux, h, hc]

theorem fetchAux_succ_of_other_retry {env : Nat → AttemptOutcome} {a : Nat}
    (m f : Nat) {msg : String} (h : env a = .otherError msg)
    (ha : a < m - 1) :
    fetchAux env m a (f + 1) =
      ((fetchAux env m (a + 1) f).1, (fetchAux env m (a + 1) f).2 + 1) := by
  simp [fetchAux, h, ha]

theorem fetchAux_succ_of_other_last {env : Nat → AttemptOutcome} {a : Nat}
    (m f : Nat) {msg : String} (h : env a = .otherError msg)
    (ha : ¬ a < m - 1) :
    fetchAux env m a (f + 1) = (.raised (.other msg), 1) := by
  simp [fetchAux, h, ha]

theorem fetchAux_result_cases (env : Nat → AttemptOutcome) (m : Nat) :
    ∀ fuel a,
      (∃ i, a ≤ i ∧ i < a + fuel ∧ ∃ d, env i = .success d ∧
          (fetchAux env m a fuel).1 = .ok d) ∨
      (∃ e, (fetchAux env m a fuel).1 = .raised e) ∨
      (fetchAux env m a fuel).1 = .ok [] := by
  intro fuel
  induction fuel with
  | zero => intro a; right; right; simp [fetchAux]
  | succ f ih =>
    intro a
    cases he : env a with
    | success d =>
      left
      exact ⟨a, le_refl a, by omega, d, he, by
        rw [fetchAux_succ_of_success m f he]⟩
    | httpError c =>
      by_cases hc : c = 429
      · subst hc
        rw [fetchAux_succ_of_429 m f he]
        rcases ih (a + 1) with ⟨i, h1, h2, d, h3, h4⟩ | ⟨e, h⟩ | h
        · exact Or.inl ⟨i, by omega, by omega, d, h3, h4⟩
        · exact Or.inr (Or.inl ⟨e, h⟩)
        · exact Or.inr (Or.inr h)
      · right; left
        exact ⟨.http c, by rw [fetchAux_succ_of_http m f he hc]⟩
    | otherError msg =>
      by_cases ha : a < m - 1
      · rw [fetchAux_succ_of_other_retry m f he ha]
        rcases ih (a + 1) with ⟨i, h1, h2, d, h3, h4⟩ | ⟨e, h⟩ | h
        · exact Or.inl ⟨i, by omega, by omega, d, h3, h4⟩
        · exact Or.inr (Or.inl ⟨e, h⟩)
        · exact Or.inr (Or.inr h)
      · right; left
        exact ⟨.other msg, by rw [fetchAux_succ_of_other_last m f he ha]⟩

/-- C8 counterexample: when all three attempts are rate-limited (HTTP 429),
`fetch_url` exhausts its retry budget (3 attempts) and then RETURNS
successfully with empty bytes — it does not fail with a `RetrievalError` as
the claim requires (the `for` loop falls through to `return b""`). -/
theorem fetch_url_allRateLimited_returns_cex :
    fetch_url_traced (fun _ => .httpError 429) 3 = (.ok [], 3) := rfl

/-- C8 (amended): `fetch_url` makes at most 3 attempts; when all 3 attempts
are rate-limited it performs exactly 3 attempts and then returns empty bytes
successfully rather than failing; and every call either returns the bytes of
some successful attempt, fails with the raised error, or returns empty
bytes. -/
theorem fetch_url_retry_bound (env : Nat → AttemptOutcome) :
    (fetch_url_traced env 3).2 ≤ 3 ∧
    ((∀ i, i < 3 → env i = .httpError 429) →
      fetch_url_traced env 3 = (.ok [], 3)) ∧
    ((∃ i, i < 3 ∧ ∃ d, env i = .success d ∧ fetch_url env 3 = .ok d) ∨
      (∃ e, fetch_url env 3 = .raised e) ∨ fetch_url env 3 = .ok []) := by
  refine ⟨fetchAux_count_le env 3 3 0, ?_, ?_⟩
  · intro h
    have h0 := h 0 (by omega)
    have h1 := h 1 (by omega)
    have h2 := h 2 (by omega)
    show fetchAux env 3 0 (2 + 1) = (.ok [], 3)
    rw [fetchAux_succ_of_429 3 2 h0]
    rw [show (2 : Nat) = 1 + 1 from rfl, fetchAux_succ_of_429 3 1 h1]
    rw [show (1 : Nat) = 0 + 1 from rfl, fetchAux_succ_of_429 3 0 h2]
    simp [fetchAux]
  · have := fetchAux_result_cases env 3 3 0
    simpa [fetch_url, fetch_url_traced] using this

/-- C8 witness: the amended theorem applied to the all-rate-limited oracle. -/
theorem fetch_url_retry_bound_witness :
    fetch_url_traced (fun _ => .httpError 429) 3 = (.ok [], 3) :=
  (fetch_url_retry_bound (fun _ => .httpError 429)).2.1 (fun _ _ => rfl)

/-- C9 counterexample: with a non-HTTP failure on the first two attempts and
a success on the third, `fetch_url` retries TWICE (3 attempts total) and
returns the third attempt's bytes — contradicting the claim that a non-HTTP
failure is retried exactly once and then propagated. -/
theorem fetch_url_other_failure_retries_twice_cex :
    fetch_url_traced
      (fun i => if i < 2 then .otherError "boom" else .success [7]) 3 =
      (.ok [7], 3) := rfl

/-- C9 (amended): a non-429 HTTP status on the first attempt is propagated
immediately, with exactly one attempt and no retry; a failure that is neither
a rate-limit response nor another HTTP status is retried while attempts
remain — up to two retries, three attempts total — after which the last
failure is propagated. -/
theorem fetch_url_error_propagation (env : Nat → AttemptOutcome) :
    (∀ c, env 0 = .httpError c → c ≠ 429 →
      fetch_url_traced env 3 = (.raised (.http c), 1)) ∧
    ((∀ i, i < 3 → ∃ msg, env i = .otherError msg) →
      ∃ msg, env 2 = .otherError msg ∧
        fetch_url_traced env 3 = (.raised (.other msg), 3)) := by
  constructor
  · intro c h hc
    show fetchAux env 3 0 (2 + 1) = (.raised (.http c), 1)
    rw [fetchAux_succ_of_http 3 2 h hc]
  · intro h
    obtain ⟨m0, h0⟩ := h 0 (by omega)
    obtain ⟨m1, h1⟩ := h 1 (by omega)
    obtain ⟨m2, h2⟩ := h 2 (by omega)
    refine ⟨m2, h2, ?_⟩
    show fetchAux env 3 0 (2 + 1) = (.raised (.other m2), 3)
    rw [fetchAux_succ_of_other_retry 3 2 h0 (by omega)]
    rw [show (2 : Nat) = 1 + 1 from rfl,
      fetchAux_succ_of_other_retry 3 1 h1 (by omega)]
    rw [show (1 : Nat) = 0 + 1 from rfl,
      fetchAux_succ_of_other_last 3 0 h2 (by omega)]

/-- C9 witness: the amended theorem applied to a concrete HTTP-500 oracle. -/
theorem fetch_url_error_propagation_witness :
    fetch_url_traced (fun _ => .httpError 500) 3 = (.raised (.http 500), 1) :=
  (fetch_url_error_propagation (fun _ => .httpError 500)).1 500 rfl
    (by decide)

/-! ### FilingLocator: `get_latest_13f_url`

The upstream filing-history JSON is modelled by its four parallel arrays
(`filings.recent.form/accessionNumber/filingDate/reportDate`).  The function
scans `enumerate(forms)`; Python's `accessions[i]` / `dates[i]` can raise
`IndexError` on ragged arrays, modelled by `Except`. -/

/-- The parallel arrays of the entity's filing-history document. -/
structure FilingHistory where
  forms : List String
  accessions : List String
  dates : List String
  report_dates : List String

/-- Python `IndexError` raised by `accessions[i]` / `dates[i]`. -/
inductive LocErr where
  | indexError
deriving DecidableEq

/-- `form in ("13F-HR", "13F-HR/A")`. -/
def is13F (form : String) : Bool := form = "13F-HR" || form = "13F-HR/A"

/-- The `for i, form in enumerate(forms)` loop of `get_latest_13f_url`:
`i` is the current index, the list argument the remaining forms. -/
def latestGo (h : FilingHistory) (i : Nat) :
    List String → Except LocErr (String × String × String)
  | [] => .ok ("", "", "")
  | form :: rest =>
    if is13F form then
      match h.accessions[i]? with
      | none => .error .indexError
      | some accession_formatted =>
        let accession_raw := stripDashes accession_formatted
        match h.report_dates[i]? with
        | some rep => .ok (accession_raw, rep, accession_formatted)
        | none =>
          match h.dates[i]? with
          | none => .error .indexError
          | some d => .ok (accession_raw, d, accession_formatted)
    else latestGo h (i + 1) rest

/-- `get_latest_13f_url(cik)` given the entity's fetched filing history. -/
def get_latest_13f_url (h : FilingHistory) :
    Except LocErr (String × String × String) :=
  latestGo h 0 h.forms

theorem latestGo_no_match (h : FilingHistory) :
    ∀ l i, (∀ f ∈ l, is13F f = false) → latestGo h i l = .ok ("", "", "") := by
  intro l
  induction l with
  | nil => intro i _; rfl
  | cons f rest ih =>
    intro i hall
    have hf : is13F f = false := hall f (List.mem_cons_self f rest)
    rw [latestGo, if_neg (by simp [hf])]
    exact ih (i + 1) (fun g hg => hall g (List.mem_cons_of_mem f hg))

theorem latestGo_first_hit (h : FilingHistory) :
    ∀ pre k form post acc rep,
      (∀ g ∈ pre, is13F g = false) →
      is13F form = true →
      h.accessions[k + pre.length]? = some acc →
      h.report_dates[k + pre.length]? = some rep →
      latestGo h k (pre ++ form :: post) =
        .ok (stripDashes acc, rep, acc) := by
  intro pre
  induction pre with
  | nil =>
    intro k form post acc rep _ hform hacc hrep
    simp only [List.length_nil, Nat.add_zero] at hacc hrep
    rw [List.nil_append, latestGo, if_pos (by simp [hform]), hacc, hrep]
  | cons g pre ih =>
    intro k form post acc rep hpre hform hacc hrep
    have hg : is13F g = false := hpre g (List.mem_cons_self g pre)
    rw [List.cons_append, latestGo, if_neg (by simp [hg])]
    exact ih (k + 1) form post acc rep
      (fun g' hg' => hpre g' (List.mem_cons_of_mem g hg'))
      hform (by simpa [Nat.add_comm, Nat.add_left_comm] using hacc)
      (by simpa [Nat.add_comm, Nat.add_left_comm] using hrep)

/-- C1-adjacent helper is not needed; C6: the locator returns the FIRST entry
whose form is `13F-HR` or `13F-HR/A` (so an amendment later in the history is
not selected), and returns the empty sentinel triple — not an error — when no
entry matches. -/
theorem get_latest_13f_url_first_match (h : FilingHistory) :
    ((∀ f ∈ h.forms, is13F f = false) →
      get_latest_13f_url h = .ok ("", "", "")) ∧
    (∀ pre form post acc rep,
      h.forms = pre ++ form :: post →
      (∀ g ∈ pre, is13F g = false) →
      is13F form = true →
      h.accessions[pre.length]? = some acc →
      h.report_dates[pre.length]? = some rep →
      get_latest_13f_url h = .ok (stripDashes acc, rep, acc)) := by
  constructor
  · intro hall
    exact latestGo_no_match h h.forms 0 hall
  · intro pre form post acc rep hsplit hpre hform hacc hrep
    rw [get_latest_13f_url, hsplit]
    exact latestGo_first_hit h pre 0 form post acc rep hpre hform
      (by simpa using hacc) (by simpa using hrep)

/-- C6 witness: the spec scenario — a history with
`form = ["10-K", "13F-HR", "13F-HR/A"]` selects the `13F-HR` entry at
index 1, not the amendment at index 2. -/
theorem get_latest_13f_url_first_match_witness :
    get_latest_13f_url
      { forms := ["10-K", "13F-HR", "13F-HR/A"],
        accessions :=
          ["0001-11-111111", "0000950123-25-008343", "0002-22-222222"],
        dates := ["2025-03-01", "2025-02-14", "2025-02-20"],
        report_dates := ["2025-01-31", "2024-12-31", "2024-09-30"] } =
      .ok ("000095012325008343", "2024-12-31", "0000950123-25-008343") := by
  have := (get_latest_13f_url_first_match
    { forms := ["10-K", "13F-HR", "13F-HR/A"],
      accessions :=
        ["0001-11-111111", "0000950123-25-008343", "0002-22-222222"],
      dates := ["2025-03-01", "2025-02-14", "2025-02-20"],
      report_dates := ["2025-01-31", "2024-12-31", "2024-09-30"] }).2
    ["10-K"] "13F-HR" ["13F-HR/A"] "0000950123-25-008343" "2024-12-31"
    rfl (by decide) (by decide) rfl rfl
  simpa using this

/-! ### ResourceResolver: `find_info_table_url`

The three network interactions are an oracle: the parsed `item` names of the
index JSON (or a fetch/parse failure), the text of the index HTML page (or a
fetch failure), and whether the probe fetch of each candidate URL succeeds.
The traced variant also returns, in order, the URL of every fetch the
resolver attempts, so that "attempts the next method / next candidate"
claims are statable. -/

/-- Python `s.endswith(suffix)`. -/
def strEndsWith (s suffix : String) : Bool :=
  suffix.toList.isSuffixOf s.toList

/-- Python `s.startswith(p)`. -/
def strStartsWith (s p : String) : Bool :=
  p.toList.isPrefixOf s.toList

/-- Python `link.split("/")[-1]`: the part after the last `/` (the whole
string when there is no `/`). -/
def lastSlashComponent (s : String) : String :=
  ⟨(s.toList.reverse.takeWhile (fun c => c ≠ '/')).reverse⟩

/-- `href="` matched case-insensitively at the head of `l`. -/
def matchesHref (l : List Char) : Bool :=
  "href=\"".toList.isPrefixOf ((l.take 6).map Char.toLower)

/-- `\.xml` at the end of the capture, case-insensitively. -/
def endsWithXmlCI (seg : List Char) : Bool :=
  ".xml".toList.isSuffixOf (seg.map Char.toLower)

/-- `re.findall(r'href="([^"]*\.xml)"', html, re.IGNORECASE)`, scanned left
to right: at each position a match needs the literal `href="`, captures up to
the next `"`, and succeeds iff the capture ends in `.xml`; scanning resumes
after the closing quote on a match and one character later otherwise.  The
fuel is the remaining length; every step consumes at least one character. -/
def extractXmlLinksAux : Nat → List Char → List (List Char)
  | 0, _ => []
  | _, [] => []
  | fuel + 1, c :: rest =>
    if matchesHref (c :: rest) then
      let after := (c :: rest).drop 6
      let seg := after.takeWhile (fun ch => ch ≠ '"')
      match after.dropWhile (fun ch => ch ≠ '"') with
      | _ :: rest2 =>
        if endsWithXmlCI seg then seg :: extractXmlLinksAux fuel rest2
        else extractXmlLinksAux fuel rest
      | [] => extractXmlLinksAux fuel rest
    else extractXmlLinksAux fuel rest

/-- All `.xml` hyperlink captures of the page, in order. -/
def extractXmlLinks (html : String) : List String :=
  (extractXmlLinksAux html.toList.length html.toList).map
    (fun l => (⟨l⟩ : String))

/-- Outcomes of the resolver's network interactions. -/
structure ResolverFetches where
  indexJsonItems : Except String (List String)
  indexHtmlText : Except String String
  probeOk : String → Bool

/-- `https://www.sec.gov/Archives/edgar/data/{cik}/{accession_raw}/`. -/
def edgarBase (cik accession_raw : String) : String :=
  "https://www.sec.gov/Archives/edgar/data/" ++ cik ++ "/" ++
    accession_raw ++ "/"

/-- URL of the machine-readable `-index.json` directory listing. -/
def indexJsonUrl (cik accession_raw accession_formatted : String) : String :=
  edgarBase cik accession_raw ++ accession_formatted ++ "-index.json"

/-- URL of the human-readable `-index.htm` page. -/
def indexHtmlUrl (cik accession_raw accession_formatted : String) : String :=
  edgarBase cik accession_raw ++ accession_formatted ++ "-index.htm"

/-- Method 1 ("index-document"): scan the JSON directory's `item` names for
an `.xml` name containing `infotable`; failing that, any `.xml` name not
containing `primary`.  Any exception in the block yields no candidate. -/
def method1 (env : ResolverFetches) (base_url : String) : Option String :=
  match env.indexJsonItems with
  | .error _ => none
  | .ok items =>
    match items.find? (fun name =>
        strEndsWith (strLower name) ".xml" &&
        strContains (strLower name) "infotable") with
    | some name => some (base_url ++ name)
    | none =>
      match items.find? (fun name =>
          strEndsWith (strLower name) ".xml" &&
          !strContains (strLower name) "primary") with
      | some name => some (base_url ++ name)
      | none => none

/-- Resolution of a matched link to a URL: absolute links pass through,
relative ones are joined to the base as `base + link.split("/")[-1]`. -/
def mkLinkUrl (base_url link : String) : String :=
  if strStartsWith link "http" then link
  else base_url ++ lastSlashComponent link

/-- Method 2 ("index-page"): extract `.xml` hyperlinks from the HTML page;
prefer one whose target contains `infotable` or `information`; otherwise, if
the page's text contains `INFORMATION TABLE`, accept any non-`primary`
`.xml` link.  Any exception in the block yields no candidate. -/
def method2 (env : ResolverFetches) (base_url : String) : Option String :=
  match env.indexHtmlText with
  | .error _ => none
  | .ok html =>
    let links := extractXmlLinks html
    match links.find? (fun link =>
        strContains (strLower link) "infotable" ||
        strContains (strLower link) "information") with
    | some link => some (mkLinkUrl base_url link)
    | none =>
      if strContains (strUpper html) "INFORMATION TABLE" then
        match links.find? (fun link =>
            strEndsWith (strLower link) ".xml" &&
            !strContains (strLower link) "primary") with
        | some link => some (mkLinkUrl base_url link)
        | none => none
      else none

/-- The fixed, ordered probe list of conventional file names. -/
def common_names : List String :=
  ["form13fInfoTable.xml", "infotable.xml", "InfoTable.xml", "INFOTABLE.XML",
   "information_table.xml", "xslForm13F_X02.xml"]

/-- Method 3 ("filename probe"): fetch each candidate in order, returning the
first whose fetch does not raise, together with the URLs attempted. -/
def probeLoop (env : ResolverFetches) (base_url : String) :
    List String → String × List String
  | [] => ("", [])
  | name :: rest =>
    let test_url := base_url ++ name
    if env.probeOk test_url then (test_url, [test_url])
    else
      let p := probeLoop env base_url rest
      (p.1, test_url :: p.2)

/-- `find_info_table_url` with, in order, the URL of every fetch attempted
(the index JSON, then — only if method 1 produced no candidate — the index
page, then — only if method 2 also produced none — the probes). -/
def find_info_table_url_traced (cik accession_raw accession_formatted : String)
    (env : ResolverFetches) : String × List String :=
  let base_url := edgarBase cik accession_raw
  let jsonUrl := indexJsonUrl cik accession_raw accession_formatted
  let htmlUrl := indexHtmlUrl cik accession_raw accession_formatted
  match method1 env base_url with
  | some url => (url, [jsonUrl])
  | none =>
    match method2 env base_url with
    | some url => (url, [jsonUrl, htmlUrl])
    | none =>
      let p := probeLoop env base_url common_names
      (p.1, jsonUrl :: htmlUrl :: p.2)

/-- `find_info_table_url(cik, accession_raw, accession_formatted)`. -/
def find_info_table_url (cik accession_raw accession_formatted : String)
    (env : ResolverFetches) : String :=
  (find_info_table_url_traced cik accession_raw accession_formatted env).1

theorem probeLoop_all_fail (env : ResolverFetches) (base_url : String) :
    ∀ l, (∀ n ∈ l, env.probeOk (base_url ++ n) = false) →
      probeLoop env base_url l = ("", l.map (fun n => base_url ++ n)) := by
  intro l
  induction l with
  | nil => intro _; rfl
  | cons n rest ih =>
    intro hall
    have hn := hall n (List.mem_cons_self n rest)
    rw [probeLoop, if_neg (by simp [hn]),
      ih (fun m hm => hall m (List.mem_cons_of_mem n hm))]
    rfl

theorem probeLoop_first_hit (env : ResolverFetches) (base_url : String) :
    ∀ pre name post,
      (∀ n ∈ pre, env.probeOk (base_url ++ n) = false) →
      env.probeOk (base_url ++ name) = true →
      (probeLoop env base_url (pre ++ name :: post)).1 =
        base_url ++ name := by
  intro pre
  induction pre with
  | nil =>
    intro name post _ hname
    rw [List.nil_append, probeLoop, if_pos hname]
  | cons n pre ih =>
    intro name post hpre hname
    have hn := hpre n (List.mem_cons_self n pre)
    rw [List.cons_append, probeLoop, if_neg (by simp [hn])]
    exact ih name post (fun m hm => hpre m (List.mem_cons_of_mem n hm)) hname

/-- C2: when the index-document method yields no candidate, the resolver
attempts the index-page fetch before returning; when both methods yield no
candidate it probes every name of the fixed list, in order, treating each
probe-fetch failure as "try the next candidate"; and when all three methods
fail it returns the empty string (no exception — the return type is
`String`). -/
theorem find_info_table_url_fallback (cik a1 a2 : String)
    (env : ResolverFetches) :
    (method1 env (edgarBase cik a1) = none →
      indexHtmlUrl cik a1 a2 ∈
        (find_info_table_url_traced cik a1 a2 env).2) ∧
    (method1 env (edgarBase cik a1) = none →
      method2 env (edgarBase cik a1) = none →
      (∀ n ∈ common_names, env.probeOk (edgarBase cik a1 ++ n) = false) →
      find_info_table_url_traced cik a1 a2 env =
        ("", indexJsonUrl cik a1 a2 :: indexHtmlUrl cik a1 a2 ::
          common_names.map (fun n => edgarBase cik a1 ++ n))) ∧
    (∀ pre name post,
      common_names = pre ++ name :: post →
      method1 env (edgarBase cik a1) = none →
      method2 env (edgarBase cik a1) = none →
      (∀ n ∈ pre, env.probeOk (edgarBase cik a1 ++ n) = false) →
      env.probeOk (edgarBase cik a1 ++ name) = true →
      find_info_table_url cik a1 a2 env = edgarBase cik a1 ++ name) := by
  refine ⟨?_, ?_, ?_⟩
  · intro h1
    simp only [find_info_table_url_traced, h1]
    cases h2 : method2 env (edgarBase cik a1) <;> simp
  · intro h1 h2 hall
    simp only [find_info_table_url_traced, h1, h2,
      probeLoop_all_fail env (edgarBase cik a1) common_names hall]
  · intro pre name post hsplit h1 h2 hpre hname
    simp only [find_info_table_url, find_info_table_url_traced, h1, h2]
    rw [hsplit]
    exact probeLoop_first_hit env (edgarBase cik a1) pre name post hpre hname

/-- C2 witness: with both index methods failing, the first probe name
failing and the second succeeding, the resolver returns the second probe's
URL. -/
theorem find_info_table_url_fallback_witness :
    find_info_table_url "123" "acc" "fmt"
      { indexJsonItems := .error "HTTP 404",
        indexHtmlText := .error "HTTP 404",
        probeOk := fun u =>
          u == edgarBase "123" "acc" ++ "infotable.xml" } =
      edgarBase "123" "acc" ++ "infotable.xml" :=
  (find_info_table_url_fallback "123" "acc" "fmt"
      { indexJsonItems := .error "HTTP 404",
        indexHtmlText := .error "HTTP 404",
        probeOk := fun u =>
          u == edgarBase "123" "acc" ++ "infotable.xml" }).2.2
    ["form13fInfoTable.xml"] "infotable.xml"
    ["InfoTable.xml", "INFOTABLE.XML", "information_table.xml",
      "xslForm13F_X02.xml"]
    rfl rfl rfl (by decide) (by decide)

/-! ### HoldingsParser: `parse_13f_xml`

The parser is modelled from the element tree onward: the byte-level
`ET.fromstring` stage (and its XML-declaration-stripping retry) sits below
the tree model, and every claim about the parser concerns the tree stage.
An `ElementTree` element is a tag (namespaced tags carry their
`\x7buri\x7d` prefix exactly as in `ElementTree`), optional text, and child
elements.  `find`/`findtext` with a plain path search direct children;
`findall(".//tag")` returns all proper descendants with that tag in document
order.  Python `int()` failures (`ValueError`) propagate out of the parser,
modelled by `Except`. -/

/-- An `xml.etree.ElementTree` element. -/
inductive XmlElem where
  | mk (tag : String) (text : Option String) (children : List XmlElem)

/-- The element's (namespace-qualified) tag. -/
def XmlElem.tag : XmlElem → String
  | .mk t _ _ => t

/-- The element's text, `none` when absent. -/
def XmlElem.text : XmlElem → Option String
  | .mk _ x _ => x

/-- The element's direct children. -/
def XmlElem.children : XmlElem → List XmlElem
  | .mk _ _ cs => cs

mutual

/-- All proper descendants of an element, in document order; these are the
elements `findall(".//tag")` scans. -/
def descendants : XmlElem → List XmlElem
  | .mk _ _ cs => descList cs

/-- Descendant closure of a forest, in document order. -/
def descList : List XmlElem → List XmlElem
  | [] => []
  | c :: cs => c :: (descendants c ++ descList cs)

end

/-- `elem.find(path)` for a plain path: first direct child with that tag. -/
def XmlElem.findChild (e : XmlElem) (path : String) : Option XmlElem :=
  e.children.find? (fun c => c.tag == path)

/-- `elem.findtext(path, dflt)`: the found child's text (`""` when the child
has no text), or `dflt` when there is no such child. -/
def XmlElem.findtextD (e : XmlElem) (path dflt : String) : String :=
  match e.findChild path with
  | some c => c.text.getD ""
  | none => dflt

/-- `elem.findtext(path)` with no default: `none` when there is no such
child, the child's text (`""` when it has none) otherwise. -/
def XmlElem.findtextOpt (e : XmlElem) (path : String) : Option String :=
  (e.findChild path).map (fun c => c.text.getD "")

/-- `ValueError` (from `int()` or `.index`) propagating out of the parser. -/
inductive ParseErr where
  | valueError
deriving DecidableEq

/-- One parsed holding (the Python dict built per `infoTable` element).
The dict key `"type"` is the field `shType`; `weight` is added later by
`process_fund` and is absent from the parser's dicts, which is observably
the same as `0` because every later read defaults it to `0`. -/
structure Holding where
  name : String
  title : String
  cusip : String
  value : Int
  shares : Int
  shType : String
  discretion : String
  weight : Rat
deriving DecidableEq

/-- The fixed candidate namespace-prefix list `ns_patterns`. -/
def ns_patterns_base : List String :=
  ["\x7bhttp://www.sec.gov/edgar/document/thirteenf/informationtable\x7d",
   "\x7bhttp://www.sec.gov/edgar/thirteenf\x7d",
   "\x7bhttp://www.sec.gov/edgar/common/informationtable\x7d",
   ""]

/-- `root_tag[:root_tag.index("\x7d") + 1]`, with `.index`'s `ValueError`
when `\x7d` is absent; evaluated only when `\x7b` occurs in the tag. -/
def tagAutoNs (root_tag : String) : Except ParseErr String :=
  if root_tag.toList.contains '\x7d' then
    .ok ⟨root_tag.toList.takeWhile (fun c => c ≠ '\x7d') ++ ['\x7d']⟩
  else .error .valueError

/-- The namespace-candidate list for a document: the auto-detected namespace
of the root tag is prepended when it is not already a known pattern. -/
def nsPatternsOfTag (root_tag : String) : Except ParseErr (List String) :=
  if strContains root_tag "\x7b" then do
    let auto ← tagAutoNs root_tag
    if ns_patterns_base.contains auto then pure ns_patterns_base
    else pure (auto :: ns_patterns_base)
  else pure ns_patterns_base

/-- The `for ns in ns_patterns: info_tables = root.findall(...)` loop:
first candidate namespace whose `infoTable` search is non-empty wins; when
none matches the result is the empty list. -/
def findInfoTables (root : XmlElem) : List String → List XmlElem
  | [] => []
  | ns :: rest =>
    let found := (descendants root).filter (fun e => e.tag == ns ++ "infoTable")
    if found.isEmpty then findInfoTables root rest else found

/-- The `for ns in ns_patterns` loop inside one `infoTable` element: the
first namespace whose `nameOfIssuer` lookup is truthy (present and non-empty
BEFORE stripping) supplies every field of the holding and breaks; when no
namespace matches, the element's dict stays empty (`none`, dropped later).
`int()` failures raise. -/
def extractEntryGo (entry : XmlElem) :
    List String → Except ParseErr (Option Holding)
  | [] => .ok none
  | ns :: rest =>
    match entry.findtextOpt (ns ++ "nameOfIssuer") with
    | none => extractEntryGo entry rest
    | some name =>
      if name = "" then extractEntryGo entry rest
      else do
        let title := pyStrip (entry.findtextD (ns ++ "titleOfClass") "COM")
        let cusip := pyStrip (entry.findtextD (ns ++ "cusip") "")
        let val_text := entry.findtextD (ns ++ "value") "0"
        let v ← match pyInt val_text with
          | some v => pure v
          | none => Except.error ParseErr.valueError
        let sh ← match entry.findChild (ns ++ "shrsOrPrnAmt") with
          | some shares_node => do
            let sh_text := shares_node.findtextD (ns ++ "sshPrnamt") "0"
            let s ← match pyInt sh_text with
              | some s => pure s
              | none => Except.error ParseErr.valueError
            pure ((s : Int),
              shares_node.findtextD (ns ++ "sshPrnamtType") "SH")
          | none => pure ((0 : Int), "SH")
        let discretion :=
          pyStrip (entry.findtextD (ns ++ "investmentDiscretion") "SOLE")
        pure (some { name := pyStrip name, title := title, cusip := cusip,
                     value := v * 1000, shares := sh.1, shType := sh.2,
                     discretion := discretion, weight := 0 })

/-- `parse_13f_xml` from the parsed tree: candidate namespaces, `infoTable`
search, per-element extraction, and the final `if holding.get("name")`
filter that drops elements whose stripped issuer name is empty. -/
def parse_13f_xml (root : XmlElem) : Except ParseErr (List Holding) := do
  let ns_patterns ← nsPatternsOfTag root.tag
  let info_tables := findInfoTables root ns_patterns
  let entries ← info_tables.mapM (fun entry => extractEntryGo entry ns_patterns)
  pure ((entries.filterMap id).filter (fun h => h.name != ""))

/-! #### Structurally identical documents across namespaces

`RawPosition` is the namespace-independent content of one `infoTable`
element; `buildDoc ns` writes it as a document qualified throughout by the
namespace prefix `ns`.  `rawExtract` is the namespace-free value of the
per-element extraction, used as the common value all namespace variants are
proved equal to. -/

/-- The position data of one container element, each field optionally
present. -/
structure RawPosition where
  nameOfIssuer : Option String
  titleOfClass : Option String
  cusip : Option String
  value : Option String
  shrsOrPrnAmt : Option (Option String × Option String)
  investmentDiscretion : Option String

/-- A leaf field element, absent or present with its text. -/
def leafElems (ns fld : String) : Option String → List XmlElem
  | none => []
  | some t => [.mk (ns ++ fld) (some t) []]

/-- The nested `shrsOrPrnAmt` block, absent or present. -/
def shrsChunk (ns : String) :
    Option (Option String × Option String) → List XmlElem
  | none => []
  | some st =>
    [.mk (ns ++ "shrsOrPrnAmt") none
      (leafElems ns "sshPrnamt" st.1 ++ leafElems ns "sshPrnamtType" st.2)]

/-- One `infoTable` element qualified by `ns`. -/
def buildEntry (ns : String) (r : RawPosition) : XmlElem :=
  .mk (ns ++ "infoTable") none
    (leafElems ns "nameOfIssuer" r.nameOfIssuer ++
     (leafElems ns "titleOfClass" r.titleOfClass ++
      (leafElems ns "cusip" r.cusip ++
       (leafElems ns "value" r.value ++
        (shrsChunk ns r.shrsOrPrnAmt ++
         leafElems ns "investmentDiscretion" r.investmentDiscretion)))))

/-- A whole information-table document qualified by `ns`. -/
def buildDoc (ns : String) (data : List RawPosition) : XmlElem :=
  .mk (ns ++ "informationTable") none (data.map (buildEntry ns))

/-- The namespace-free value of the per-element extraction. -/
def rawExtract (r : RawPosition) : Except ParseErr (Option Holding) :=
  match r.nameOfIssuer with
  | none => .ok none
  | some name =>
    if name = "" then .ok none
    else do
      let v ← match pyInt (r.value.getD "0") with
        | some v => pure v
        | none => Except.error ParseErr.valueError
      let sh ← match r.shrsOrPrnAmt with
        | some st => do
          let s ← match pyInt (st.1.getD "0") with
            | some s => pure s
            | none => Except.error ParseErr.valueError
          pure ((s : Int), st.2.getD "SH")
        | none => pure ((0 : Int), "SH")
      pure (some { name := pyStrip name,
                   title := pyStrip (r.titleOfClass.getD "COM"),
                   cusip := pyStrip (r.cusip.getD ""),
                   value := v * 1000, shares := sh.1, shType := sh.2,
                   discretion := pyStrip (r.investmentDiscretion.getD "SOLE"),
                   weight := 0 })

/-- The namespace-free value of the whole parse. -/
def rawParse (data : List RawPosition) : Except ParseErr (List Holding) := do
  let entries ← data.mapM rawExtract
  pure ((entries.filterMap id).filter (fun h => h.name != ""))

/-- The tag suffixes the parser ever looks up (plus the container tag). -/
def parserFields : List String :=
  ["nameOfIssuer", "titleOfClass", "cusip", "value", "shrsOrPrnAmt",
   "sshPrnamt", "sshPrnamtType", "investmentDiscretion", "infoTable"]

theorem descList_append (l1 l2 : List XmlElem) :
    descList (l1 ++ l2) = descList l1 ++ descList l2 := by
  induction l1 with
  | nil => simp [descList]
  | cons c cs ih => simp [descList, ih]

theorem descList_leafElems (ns fld : String) (o : Option String) :
    descList (leafElems ns fld o) = leafElems ns fld o := by
  cases o <;> simp [leafElems, descList, descendants]

theorem tag_of_mem_leafElems {ns fld : String} {o : Option String}
    {e : XmlElem} (he : e ∈ leafElems ns fld o) : e.tag = ns ++ fld := by
  cases o with
  | none => simp [leafElems] at he
  | some t =>
    simp [leafElems] at he
    subst he
    rfl

theorem descList_shrsChunk (ns : String)
    (o : Option (Option String × Option String)) :
    descList (shrsChunk ns o) =
      shrsChunk ns o ++
        (match o with
         | none => []
         | some st =>
           leafElems ns "sshPrnamt" st.1 ++
             leafElems ns "sshPrnamtType" st.2) := by
  cases o <;>
    simp [shrsChunk, descList, descendants, descList_append, descList_leafElems]

theorem tag_of_mem_descList_shrsChunk {ns : String}
    {o : Option (Option String × Option String)} {e : XmlElem}
    (he : e ∈ descList (shrsChunk ns o)) :
    ∃ f, f ∈ parserFields ∧ f ≠ "infoTable" ∧ e.tag = ns ++ f := by
  rw [descList_shrsChunk] at he
  rcases List.mem_append.mp he with h | h
  · cases o with
    | none => simp [shrsChunk] at h
    | some st =>
      simp [shrsChunk] at h
      subst h
      exact ⟨"shrsOrPrnAmt", by decide, by decide, rfl⟩
  · cases o with
    | none => simp at h
    | some st =>
      rcases List.mem_append.mp h with h2 | h2
      · exact ⟨"sshPrnamt", by decide, by decide, tag_of_mem_leafElems h2⟩
      · exact ⟨"sshPrnamtType", by decide, by decide, tag_of_mem_leafElems h2⟩

theorem tag_of_mem_descendants_buildEntry {ns : String} {r : RawPosition}
    {e : XmlElem} (he : e ∈ descendants (buildEntry ns r)) :
    ∃ f, f ∈ parserFields ∧ f ≠ "infoTable" ∧ e.tag = ns ++ f := by
  have hrw : descendants (buildEntry ns r) =
      leafElems ns "nameOfIssuer" r.nameOfIssuer ++
      (leafElems ns "titleOfClass" r.titleOfClass ++
       (leafElems ns "cusip" r.cusip ++
        (leafElems ns "value" r.value ++
         (descList (shrsChunk ns r.shrsOrPrnAmt) ++
          leafElems ns "investmentDiscretion" r.investmentDiscretion)))) := by
    show descList _ = _
    rw [descList_append, descList_append, descList_append, descList_append,
      descList_leafElems, descList_leafElems, descList_leafElems,
      descList_leafElems, descList_append, descList_leafElems]
  rw [hrw] at he
  rcases List.mem_append.mp he with h | h
  · exact ⟨"nameOfIssuer", by decide, by decide, tag_of_mem_leafElems h⟩
  rcases List.mem_append.mp h with h | h
  · exact ⟨"titleOfClass", by decide, by decide, tag_of_mem_leafElems h⟩
  rcases List.mem_append.mp h with h | h
  · exact ⟨"cusip", by decide, by decide, tag_of_mem_leafElems h⟩
  rcases List.mem_append.mp h with h | h
  · exact ⟨"value", by decide, by decide, tag_of_mem_leafElems h⟩
  rcases List.mem_append.mp h with h | h
  · exact tag_of_mem_descList_shrsChunk h
  · exact ⟨"investmentDiscretion", by decide, by decide,
      tag_of_mem_leafElems h⟩

theorem filter_descendants_buildEntry (ns p : String) (r : RawPosition)
    (hcr : ∀ f ∈ parserFields,
      (p ++ "infoTable" = ns ++ f ↔ (p = ns ∧ "infoTable" = f))) :
    (descendants (buildEntry ns r)).filter
      (fun e => e.tag == p ++ "infoTable") = [] := by
  rw [List.filter_eq_nil_iff]
  intro e he
  obtain ⟨f, hf, hfne, htag⟩ := tag_of_mem_descendants_buildEntry he
  simp only [beq_iff_eq, htag]
  intro heq
  exact hfne ((hcr f hf).mp heq.symm).2.symm

theorem filter_descendants_buildDoc (ns p : String) (data : List RawPosition)
    (hcr : ∀ f ∈ parserFields,
      (p ++ "infoTable" = ns ++ f ↔ (p = ns ∧ "infoTable" = f))) :
    (descendants (buildDoc ns data)).filter
      (fun e => e.tag == p ++ "infoTable") =
      if p = ns then data.map (buildEntry ns) else [] := by
  induction data with
  | nil =>
    show (descList []).filter _ = _
    simp [descList]
  | cons r rest ih =>
    have hself : ((buildEntry ns r).tag == p ++ "infoTable") = decide (p = ns) := by
      show ((ns ++ "infoTable" : String) == p ++ "infoTable") = decide (p = ns)
      by_cases hp : p = ns
      · subst hp; simp
      · have : ¬(p ++ "infoTable" = ns ++ "infoTable") := fun h =>
          hp ((hcr "infoTable" (by decide)).mp h).1
        simp [hp]
        exact fun h => absurd h.symm this
    show (descList (buildEntry ns r :: rest.map (buildEntry ns))).filter _ = _
    rw [descList]
    rw [List.filter_cons, List.filter_append,
      filter_descendants_buildEntry ns p r hcr]
    have ihx : (descList (rest.map (buildEntry ns))).filter
        (fun e => e.tag == p ++ "infoTable") =
        if p = ns then rest.map (buildEntry ns) else [] := ih
    rw [ihx, hself]
    by_cases hp : p = ns <;> simp [hp]

theorem findInfoTables_walk (root : XmlElem) (ns : String)
    (E : List XmlElem) (hE : E ≠ []) :
    ∀ l, (∀ p ∈ l, (descendants root).filter
        (fun e => e.tag == p ++ "infoTable") = if p = ns then E else []) →
      ns ∈ l → findInfoTables root l = E := by
  intro l
  induction l with
  | nil => intro _ h; simp at h
  | cons p rest ih =>
    intro hfor hmem
    rw [findInfoTables]
    by_cases hp : p = ns
    · subst hp
      rw [hfor p (List.mem_cons_self p rest), if_pos rfl,
        if_neg (by simpa [List.isEmpty_iff] using hE)]
    · rw [hfor p (List.mem_cons_self p rest), if_neg hp]
      simp only [List.isEmpty_nil, if_pos]
      exact ih (fun q hq => hfor q (List.mem_cons_of_mem p hq))
        ((List.mem_cons.mp hmem).resolve_left (fun h => hp h.symm))

theorem find?_leafElems (q ns fld : String) (o : Option String) :
    (leafElems ns fld o).find? (fun c => c.tag == q) =
      if ns ++ fld = q then
        o.map (fun t => XmlElem.mk (ns ++ fld) (some t) [])
      else none := by
  cases o with
  | none => simp [leafElems]
  | some t =>
    by_cases h : ns ++ fld = q
    · rw [if_pos h, leafElems,
        List.find?_cons_of_pos _ (by simp [XmlElem.tag, h])]
      rfl
    · rw [if_neg h, leafElems,
        List.find?_cons_of_neg _ (by simp [XmlElem.tag, h]), List.find?_nil]

theorem find?_shrsChunk (q ns : String)
    (o : Option (Option String × Option String)) :
    (shrsChunk ns o).find? (fun c => c.tag == q) =
      if ns ++ "shrsOrPrnAmt" = q then
        o.map (fun st => XmlElem.mk (ns ++ "shrsOrPrnAmt") none
          (leafElems ns "sshPrnamt" st.1 ++ leafElems ns "sshPrnamtType" st.2))
      else none := by
  cases o with
  | none => simp [shrsChunk]
  | some st =>
    by_cases h : ns ++ "shrsOrPrnAmt" = q
    · rw [if_pos h, shrsChunk,
        List.find?_cons_of_pos _ (by simp [XmlElem.tag, h])]
      rfl
    · rw [if_neg h, shrsChunk,
        List.find?_cons_of_neg _ (by simp [XmlElem.tag, h]), List.find?_nil]

/-- The key fact a tag-qualifying namespace enjoys: appending distinct field
names to it yields distinct tags. -/
def NsKey (ns : String) : Prop :=
  ∀ f1 ∈ parserFields, ∀ f2 ∈ parserFields, (ns ++ f1 = ns ++ f2 ↔ f1 = f2)

theorem NsKey.ne {ns : String} (hkey : NsKey ns) (f1 f2 : String)
    (h1 : f1 ∈ parserFields) (h2 : f2 ∈ parserFields) (hne : f1 ≠ f2) :
    ¬(ns ++ f1 = ns ++ f2) :=
  fun h => hne ((hkey f1 h1 f2 h2).mp h)

theorem findChild_buildEntry_name (ns : String) (hkey : NsKey ns)
    (r : RawPosition) :
    (buildEntry ns r).findChild (ns ++ "nameOfIssuer") =
      r.nameOfIssuer.map
        (fun t => XmlElem.mk (ns ++ "nameOfIssuer") (some t) []) := by
  simp [buildEntry, XmlElem.findChild, XmlElem.children, find?_leafElems,
    find?_shrsChunk,
    hkey.ne "titleOfClass" "nameOfIssuer" (by decide) (by decide) (by decide),
    hkey.ne "cusip" "nameOfIssuer" (by decide) (by decide) (by decide),
    hkey.ne "value" "nameOfIssuer" (by decide) (by decide) (by decide),
    hkey.ne "shrsOrPrnAmt" "nameOfIssuer" (by decide) (by decide) (by decide),
    hkey.ne "investmentDiscretion" "nameOfIssuer" (by decide) (by decide) (by decide)]

theorem findChild_buildEntry_title (ns : String) (hkey : NsKey ns)
    (r : RawPosition) :
    (buildEntry ns r).findChild (ns ++ "titleOfClass") =
      r.titleOfClass.map
        (fun t => XmlElem.mk (ns ++ "titleOfClass") (some t) []) := by
  simp [buildEntry, XmlElem.findChild, XmlElem.children, find?_leafElems,
    find?_shrsChunk,
    hkey.ne "nameOfIssuer" "titleOfClass"
      (by decide) (by decide) (by decide),
    hkey.ne "cusip" "titleOfClass"
      (by decide) (by decide) (by decide),
    hkey.ne "value" "titleOfClass"
      (by decide) (by decide) (by decide),
    hkey.ne "shrsOrPrnAmt" "titleOfClass"
      (by decide) (by decide) (by decide),
    hkey.ne "investmentDiscretion" "titleOfClass"
      (by decide) (by decide) (by decide)]

theorem findChild_buildEntry_cusip (ns : String) (hkey : NsKey ns)
    (r : RawPosition) :
    (buildEntry ns r).findChild (ns ++ "cusip") =
      r.cusip.map (fun t => XmlElem.mk (ns ++ "cusip") (some t) []) := by
  simp [buildEntry, XmlElem.findChild, XmlElem.children, find?_leafElems,
    find?_shrsChunk,
    hkey.ne "nameOfIssuer" "cusip"
      (by decide) (by decide) (by decide),
    hkey.ne "titleOfClass" "cusip"
      (by decide) (by decide) (by decide),
    hkey.ne "value" "cusip"
      (by decide) (by decide) (by decide),
    hkey.ne "shrsOrPrnAmt" "cusip"
      (by decide) (by decide) (by decide),
    hkey.ne "investmentDiscretion" "cusip"
      (by decide) (by decide) (by decide)]

theorem findChild_buildEntry_value (ns : String) (hkey : NsKey ns)
    (r : RawPosition) :
    (buildEntry ns r).findChild (ns ++ "value") =
      r.value.map (fun t => XmlElem.mk (ns ++ "value") (some t) []) := by
  simp [buildEntry, XmlElem.findChild, XmlElem.children, find?_leafElems,
    find?_shrsChunk,
    hkey.ne "nameOfIssuer" "value"
      (by decide) (by decide) (by decide),
    hkey.ne "titleOfClass" "value"
      (by decide) (by decide) (by decide),
    hkey.ne "cusip" "value"
      (by decide) (by decide) (by decide),
    hkey.ne "shrsOrPrnAmt" "value"
      (by decide) (by decide) (by decide),
    hkey.ne "investmentDiscretion" "value"
      (by decide) (by decide) (by decide)]

theorem findChild_buildEntry_shrs (ns : String) (hkey : NsKey ns)
    (r : RawPosition) :
    (buildEntry ns r).findChild (ns ++ "shrsOrPrnAmt") =
      r.shrsOrPrnAmt.map (fun st => XmlElem.mk (ns ++ "shrsOrPrnAmt") none
        (leafElems ns "sshPrnamt" st.1 ++
          leafElems ns "sshPrnamtType" st.2)) := by
  simp [buildEntry, XmlElem.findChild, XmlElem.children, find?_leafElems,
    find?_shrsChunk,
    hkey.ne "nameOfIssuer" "shrsOrPrnAmt"
      (by decide) (by decide) (by decide),
    hkey.ne "titleOfClass" "shrsOrPrnAmt"
      (by decide) (by decide) (by decide),
    hkey.ne "cusip" "shrsOrPrnAmt"
      (by decide) (by decide) (by decide),
    hkey.ne "value" "shrsOrPrnAmt"
      (by decide) (by decide) (by decide),
    hkey.ne "investmentDiscretion" "shrsOrPrnAmt"
      (by decide) (by decide) (by decide)]

theorem findChild_buildEntry_discretion (ns : String) (hkey : NsKey ns)
    (r : RawPosition) :
    (buildEntry ns r).findChild (ns ++ "investmentDiscretion") =
      r.investmentDiscretion.map
        (fun t => XmlElem.mk (ns ++ "investmentDiscretion") (some t) []) := by
  simp [buildEntry, XmlElem.findChild, XmlElem.children, find?_leafElems,
    find?_shrsChunk,
    hkey.ne "nameOfIssuer" "investmentDiscretion"
      (by decide) (by decide) (by decide),
    hkey.ne "titleOfClass" "investmentDiscretion"
      (by decide) (by decide) (by decide),
    hkey.ne "cusip" "investmentDiscretion"
      (by decide) (by decide) (by decide),
    hkey.ne "value" "investmentDiscretion"
      (by decide) (by decide) (by decide),
    hkey.ne "shrsOrPrnAmt" "investmentDiscretion"
      (by decide) (by decide) (by decide)]

theorem findChild_buildEntry_ne (ns p f : String) (r : RawPosition)
    (hne : ∀ f2 ∈ parserFields, ¬(p ++ f = ns ++ f2)) :
    (buildEntry ns r).findChild (p ++ f) = none := by
  have h1 : ¬(ns ++ "nameOfIssuer" = p ++ f) :=
    fun h => hne _ (by decide) h.symm
  have h2 : ¬(ns ++ "titleOfClass" = p ++ f) :=
    fun h => hne _ (by decide) h.symm
  have h3 : ¬(ns ++ "cusip" = p ++ f) := fun h => hne _ (by decide) h.symm
  have h4 : ¬(ns ++ "value" = p ++ f) := fun h => hne _ (by decide) h.symm
  have h5 : ¬(ns ++ "shrsOrPrnAmt" = p ++ f) :=
    fun h => hne _ (by decide) h.symm
  have h6 : ¬(ns ++ "investmentDiscretion" = p ++ f) :=
    fun h => hne _ (by decide) h.symm
  simp [buildEntry, XmlElem.findChild, XmlElem.children, find?_leafElems,
    find?_shrsChunk, h1, h2, h3, h4, h5, h6]

theorem findChild_node_sshPrnamt (ns : String) (hkey : NsKey ns)
    (st : Option String × Option String) :
    (XmlElem.mk (ns ++ "shrsOrPrnAmt") none
        (leafElems ns "sshPrnamt" st.1 ++
          leafElems ns "sshPrnamtType" st.2)).findChild (ns ++ "sshPrnamt") =
      st.1.map (fun t => XmlElem.mk (ns ++ "sshPrnamt") (some t) []) := by
  simp [XmlElem.findChild, XmlElem.children, find?_leafElems,
    hkey.ne "sshPrnamtType" "sshPrnamt"
      (by decide) (by decide) (by decide)]

theorem findChild_node_sshPrnamtType (ns : String) (hkey : NsKey ns)
    (st : Option String × Option String) :
    (XmlElem.mk (ns ++ "shrsOrPrnAmt") none
        (leafElems ns "sshPrnamt" st.1 ++
          leafElems ns "sshPrnamtType" st.2)).findChild
        (ns ++ "sshPrnamtType") =
      st.2.map (fun t => XmlElem.mk (ns ++ "sshPrnamtType") (some t) []) := by
  simp [XmlElem.findChild, XmlElem.children, find?_leafElems,
    hkey.ne "sshPrnamt" "sshPrnamtType"
      (by decide) (by decide) (by decide)]

theorem findInfoTables_empty (root : XmlElem) :
    ∀ l, (∀ p ∈ l, (descendants root).filter
        (fun e => e.tag == p ++ "infoTable") = []) →
      findInfoTables root l = [] := by
  intro l
  induction l with
  | nil => intro _; rfl
  | cons p rest ih =>
    intro hfor
    rw [findInfoTables, hfor p (List.mem_cons_self p rest)]
    simp only [List.isEmpty_nil, if_pos]
    exact ih (fun q hq => hfor q (List.mem_cons_of_mem p hq))

theorem findtextOpt_buildEntry_name (ns : String) (hkey : NsKey ns)
    (r : RawPosition) :
    (buildEntry ns r).findtextOpt (ns ++ "nameOfIssuer") = r.nameOfIssuer := by
  rw [XmlElem.findtextOpt, findChild_buildEntry_name ns hkey r]
  cases r.nameOfIssuer <;> simp [XmlElem.text]

theorem findtextOpt_buildEntry_ne (ns p : String) (r : RawPosition)
    (hne : ∀ f2 ∈ parserFields, ¬(p ++ "nameOfIssuer" = ns ++ f2)) :
    (buildEntry ns r).findtextOpt (p ++ "nameOfIssuer") = none := by
  rw [XmlElem.findtextOpt, findChild_buildEntry_ne ns p "nameOfIssuer" r hne]
  rfl

theorem findtextD_buildEntry_title (ns : String) (hkey : NsKey ns)
    (r : RawPosition) (d : String) :
    (buildEntry ns r).findtextD (ns ++ "titleOfClass") d =
      r.titleOfClass.getD d := by
  rw [XmlElem.findtextD, findChild_buildEntry_title ns hkey r]
  cases r.titleOfClass <;> simp [XmlElem.text]

theorem findtextD_buildEntry_cusip (ns : String) (hkey : NsKey ns)
    (r : RawPosition) (d : String) :
    (buildEntry ns r).findtextD (ns ++ "cusip") d = r.cusip.getD d := by
  rw [XmlElem.findtextD, findChild_buildEntry_cusip ns hkey r]
  cases r.cusip <;> simp [XmlElem.text]

theorem findtextD_buildEntry_value (ns : String) (hkey : NsKey ns)
    (r : RawPosition) (d : String) :
    (buildEntry ns r).findtextD (ns ++ "value") d = r.value.getD d := by
  rw [XmlElem.findtextD, findChild_buildEntry_value ns hkey r]
  cases r.value <;> simp [XmlElem.text]

theorem findtextD_buildEntry_discretion (ns : String) (hkey : NsKey ns)
    (r : RawPosition) (d : String) :
    (buildEntry ns r).findtextD (ns ++ "investmentDiscretion") d =
      r.investmentDiscretion.getD d := by
  rw [XmlElem.findtextD, findChild_buildEntry_discretion ns hkey r]
  cases r.investmentDiscretion <;> simp [XmlElem.text]

theorem findtextD_node_sshPrnamt (ns : String) (hkey : NsKey ns)
    (st : Option String × Option String) (d : String) :
    (XmlElem.mk (ns ++ "shrsOrPrnAmt") none
        (leafElems ns "sshPrnamt" st.1 ++
          leafElems ns "sshPrnamtType" st.2)).findtextD
        (ns ++ "sshPrnamt") d = st.1.getD d := by
  rw [XmlElem.findtextD, findChild_node_sshPrnamt ns hkey st]
  cases st.1 <;> simp [XmlElem.text]

theorem findtextD_node_sshPrnamtType (ns : String) (hkey : NsKey ns)
    (st : Option String × Option String) (d : String) :
    (XmlElem.mk (ns ++ "shrsOrPrnAmt") none
        (leafElems ns "sshPrnamt" st.1 ++
          leafElems ns "sshPrnamtType" st.2)).findtextD
        (ns ++ "sshPrnamtType") d = st.2.getD d := by
  rw [XmlElem.findtextD, findChild_node_sshPrnamtType ns hkey st]
  cases st.2 <;> simp [XmlElem.text]

theorem extractEntryGo_skip (ns p : String) (rest : List String)
    (r : RawPosition)
    (hne : ∀ f2 ∈ parserFields, ¬(p ++ "nameOfIssuer" = ns ++ f2)) :
    extractEntryGo (buildEntry ns r) (p :: rest) =
      extractEntryGo (buildEntry ns r) rest := by
  rw [extractEntryGo, findtextOpt_buildEntry_ne ns p r hne]

theorem extractEntryGo_hit (ns : String) (hkey : NsKey ns)
    (rest : List String) (r : RawPosition) (t : String)
    (hname : r.nameOfIssuer = some t) (ht : ¬ t = "") :
    extractEntryGo (buildEntry ns r) (ns :: rest) = rawExtract r := by
  rw [extractEntryGo, findtextOpt_buildEntry_name ns hkey r, hname]
  simp only [if_neg ht]
  rw [findtextD_buildEntry_title ns hkey r, findtextD_buildEntry_cusip ns hkey r,
    findtextD_buildEntry_value ns hkey r,
    findtextD_buildEntry_discretion ns hkey r,
    findChild_buildEntry_shrs ns hkey r]
  rw [rawExtract, hname]
  simp only [if_neg ht]
  cases hs : r.shrsOrPrnAmt with
  | none =>
    cases hv : pyInt (r.value.getD "0") <;> rfl
  | some st =>
    simp only [Option.map_some']
    rw [findtextD_node_sshPrnamt ns hkey st,
      findtextD_node_sshPrnamtType ns hkey st]

theorem extractEntryGo_blank (ns : String) (hkey : NsKey ns)
    (hcross : ∀ p ∈ ns_patterns_base, ∀ f1 ∈ parserFields,
      ∀ f2 ∈ parserFields, (p ++ f1 = ns ++ f2 ↔ (p = ns ∧ f1 = f2)))
    (r : RawPosition)
    (hn : r.nameOfIssuer = none ∨ r.nameOfIssuer = some "") :
    ∀ l, (∀ p ∈ l, p ∈ ns_patterns_base) →
      extractEntryGo (buildEntry ns r) l = .ok none := by
  intro l
  induction l with
  | nil => intro _; rfl
  | cons p rest ih =>
    intro hsub
    have hrest := fun q hq => hsub q (List.mem_cons_of_mem p hq)
    by_cases hp : p = ns
    · subst hp
      rw [extractEntryGo, findtextOpt_buildEntry_name p hkey r]
      rcases hn with h | h
      · rw [h]; exact ih hrest
      · rw [h]; simp only [if_pos rfl]; exact ih hrest
    · rw [extractEntryGo_skip ns p rest r (fun f2 hf2 heq =>
        hp ((hcross p (hsub p (List.mem_cons_self p rest)) "nameOfIssuer"
          (by decide) f2 hf2).mp heq).1)]
      exact ih hrest

theorem extractEntryGo_buildEntry (ns : String) (hkey : NsKey ns)
    (hcross : ∀ p ∈ ns_patterns_base, ∀ f1 ∈ parserFields,
      ∀ f2 ∈ parserFields, (p ++ f1 = ns ++ f2 ↔ (p = ns ∧ f1 = f2)))
    (r : RawPosition) :
    ∀ l, (∀ p ∈ l, p ∈ ns_patterns_base) → ns ∈ l →
      extractEntryGo (buildEntry ns r) l = rawExtract r := by
  intro l
  induction l with
  | nil => intro _ h; simp at h
  | cons p rest ih =>
    intro hsub hmem
    have hrest := fun q hq => hsub q (List.mem_cons_of_mem p hq)
    by_cases hp : p = ns
    · subst hp
      cases hname : r.nameOfIssuer with
      | none =>
        rw [extractEntryGo, findtextOpt_buildEntry_name p hkey r, hname]
        rw [extractEntryGo_blank p hkey hcross r (Or.inl hname) rest hrest]
        simp [rawExtract, hname]
      | some t =>
        by_cases ht : t = ""
        · subst ht
          rw [extractEntryGo, findtextOpt_buildEntry_name p hkey r, hname]
          simp only [if_pos rfl]
          rw [extractEntryGo_blank p hkey hcross r (Or.inr hname) rest hrest]
          simp [rawExtract, hname]
        · exact extractEntryGo_hit p hkey rest r t hname ht
    · rw [extractEntryGo_skip ns p rest r (fun f2 hf2 heq =>
        hp ((hcross p (hsub p (List.mem_cons_self p rest)) "nameOfIssuer"
          (by decide) f2 hf2).mp heq).1)]
      exact ih hrest ((List.mem_cons.mp hmem).resolve_left
        (fun h => hp h.symm))

theorem mapM_extractEntryGo (ns : String) (hmem : ns ∈ ns_patterns_base)
    (hkey : NsKey ns)
    (hcross : ∀ p ∈ ns_patterns_base, ∀ f1 ∈ parserFields,
      ∀ f2 ∈ parserFields, (p ++ f1 = ns ++ f2 ↔ (p = ns ∧ f1 = f2))) :
    ∀ data : List RawPosition,
      (data.map (buildEntry ns)).mapM
        (fun entry => extractEntryGo entry ns_patterns_base) =
      data.mapM rawExtract := by
  intro data
  induction data with
  | nil => rfl
  | cons r rest ih =>
    simp only [List.map_cons, List.mapM_cons]
    rw [extractEntryGo_buildEntry ns hkey hcross r ns_patterns_base
      (fun p hp => hp) hmem, ih]

theorem parse_buildDoc (ns : String)
    (hmem : ns ∈ ns_patterns_base)
    (hpat : nsPatternsOfTag (ns ++ "informationTable") = .ok ns_patterns_base)
    (hcross : ∀ p ∈ ns_patterns_base, ∀ f1 ∈ parserFields,
      ∀ f2 ∈ parserFields, (p ++ f1 = ns ++ f2 ↔ (p = ns ∧ f1 = f2)))
    (data : List RawPosition) :
    parse_13f_xml (buildDoc ns data) = rawParse data := by
  have hkey : NsKey ns := by
    intro f1 h1 f2 h2
    constructor
    · intro h
      exact ((hcross ns hmem f1 h1 f2 h2).mp h).2
    · intro h
      rw [h]
  have hcr : ∀ p ∈ ns_patterns_base, ∀ f ∈ parserFields,
      (p ++ "infoTable" = ns ++ f ↔ (p = ns ∧ "infoTable" = f)) :=
    fun p hp f hf => hcross p hp "infoTable" (by decide) f hf
  have htag : (buildDoc ns data).tag = ns ++ "informationTable" := rfl
  rw [parse_13f_xml, htag, hpat]
  have hb : ∀ (k : List String → Except ParseErr (List Holding)),
      (Except.ok ns_patterns_base >>= k) = k ns_patterns_base :=
    fun _ => rfl
  rw [hb]
  cases data with
  | nil =>
    rw [findInfoTables_empty (buildDoc ns []) ns_patterns_base
      (fun p hp => by
        rw [filter_descendants_buildDoc ns p [] (hcr p hp)]
        simp)]
    rfl
  | cons r rest =>
    rw [findInfoTables_walk (buildDoc ns (r :: rest)) ns
      ((r :: rest).map (buildEntry ns)) (by simp) ns_patterns_base
      (fun p hp => filter_descendants_buildDoc ns p (r :: rest) (hcr p hp))
      hmem]
    show (do
      let entries ← ((r :: rest).map (buildEntry ns)).mapM
        (fun entry => extractEntryGo entry ns_patterns_base)
      pure ((entries.filterMap id).filter (fun h => h.name != ""))) =
      rawParse (r :: rest)
    rw [mapM_extractEntryGo ns hmem hkey hcross (r :: rest)]
    rfl

theorem parse_buildDoc_of_mem (ns : String) (h : ns ∈ ns_patterns_base)
    (data : List RawPosition) :
    parse_13f_xml (buildDoc ns data) = rawParse data := by
  fin_cases h <;> refine parse_buildDoc _ ?_ ?_ ?_ data <;>
    first
    | rfl
    | decide

theorem exceptBind_ok {ε α β : Type} (a : α) (f : α → Except ε β) :
    (Except.ok a >>= f) = f a := rfl

theorem exceptBind_error {ε α β : Type} (e : ε) (f : α → Except ε β) :
    ((Except.error e : Except ε α) >>= f) = Except.error e := rfl

theorem exceptPure {ε α : Type} (a : α) :
    (pure a : Except ε α) = Except.ok a := rfl

/-- C3: parsing a document with no namespace, or declaring any of the known
namespace URIs, over structurally identical position data yields identical
holding sequences (modulo the namespace itself). -/
theorem parse_13f_xml_namespace_tolerance (ns1 ns2 : String)
    (h1 : ns1 ∈ ns_patterns_base) (h2 : ns2 ∈ ns_patterns_base)
    (data : List RawPosition) :
    parse_13f_xml (buildDoc ns1 data) = parse_13f_xml (buildDoc ns2 data) := by
  rw [parse_buildDoc_of_mem ns1 h1 data, parse_buildDoc_of_mem ns2 h2 data]

/-- C3 witness: the same position data under the primary informationtable
namespace, a second known namespace, and no namespace at all. -/
theorem parse_13f_xml_namespace_tolerance_witness :
    parse_13f_xml (buildDoc
        "\x7bhttp://www.sec.gov/edgar/document/thirteenf/informationtable\x7d"
        [{ nameOfIssuer := some "APPLE INC", titleOfClass := some "COM",
           cusip := some "037833100", value := some "1234",
           shrsOrPrnAmt := some (some "100", some "SH"),
           investmentDiscretion := some "SOLE" }]) =
      parse_13f_xml (buildDoc ""
        [{ nameOfIssuer := some "APPLE INC", titleOfClass := some "COM",
           cusip := some "037833100", value := some "1234",
           shrsOrPrnAmt := some (some "100", some "SH"),
           investmentDiscretion := some "SOLE" }]) :=
  parse_13f_xml_namespace_tolerance _ _ (by decide) (by decide) _

theorem rawParse_singleton (r : RawPosition) :
    rawParse [r] =
      match rawExtract r with
      | .error e => .error e
      | .ok none => .ok []
      | .ok (some h) => .ok (if h.name ≠ "" then [h] else []) := by
  cases hx : rawExtract r with
  | error e =>
    simp [rawParse, List.mapM, List.mapM.loop, hx, exceptBind_ok,
      exceptBind_error, exceptPure]
  | ok o =>
    cases o with
    | none =>
      simp [rawParse, List.mapM, List.mapM.loop, hx, exceptBind_ok,
        exceptBind_error, exceptPure]
    | some h =>
      simp [rawParse, List.mapM, List.mapM.loop, hx, exceptBind_ok,
        exceptBind_error, exceptPure, List.filter]
      by_cases hn : h.name = ""
      · simp [hn, bne]
      · have hb : (h.name == "") = false := beq_eq_false_iff_ne.mpr hn
        simp [bne, hb, hn]

/-- C7: per matched container element: the element is dropped from the
output when its issuer name is empty or absent after stripping; otherwise
(with the integer coercions succeeding, which the claim presumes by speaking
of "the integer coercion") the record has value 1000 times the coerced value
text (default "0"), class title defaulting to "COM", security identifier
defaulting to empty, shares 0 and amount type "SH" when the nested amount
block is absent, and voting discretion defaulting to "SOLE". -/
theorem parse_13f_xml_extraction (ns : String) (hns : ns ∈ ns_patterns_base)
    (r : RawPosition) :
    (∀ v, pyInt (r.value.getD "0") = some v →
      (∀ st, r.shrsOrPrnAmt = some st → (pyInt (st.1.getD "0")).isSome) →
      pyStrip (r.nameOfIssuer.getD "") = "" →
      parse_13f_xml (buildDoc ns [r]) = .ok []) ∧
    (∀ name v sh ty s, r.nameOfIssuer = some name → ¬ pyStrip name = "" →
      pyInt (r.value.getD "0") = some v →
      r.shrsOrPrnAmt = some (sh, ty) → pyInt (sh.getD "0") = some s →
      parse_13f_xml (buildDoc ns [r]) = .ok
        [{ name := pyStrip name, title := pyStrip (r.titleOfClass.getD "COM"),
           cusip := pyStrip (r.cusip.getD ""), value := v * 1000,
           shares := s, shType := ty.getD "SH",
           discretion := pyStrip (r.investmentDiscretion.getD "SOLE"),
           weight := 0 }]) ∧
    (∀ name v, r.nameOfIssuer = some name → ¬ pyStrip name = "" →
      pyInt (r.value.getD "0") = some v →
      r.shrsOrPrnAmt = none →
      parse_13f_xml (buildDoc ns [r]) = .ok
        [{ name := pyStrip name, title := pyStrip (r.titleOfClass.getD "COM"),
           cusip := pyStrip (r.cusip.getD ""), value := v * 1000,
           shares := 0, shType := "SH",
           discretion := pyStrip (r.investmentDiscretion.getD "SOLE"),
           weight := 0 }]) := by
  refine ⟨?_, ?_, ?_⟩
  · intro v hv hsh hempty
    rw [parse_buildDoc_of_mem ns hns [r]]
    rw [rawParse_singleton r]
    cases hname : r.nameOfIssuer with
    | none => simp [rawExtract, hname]
    | some name =>
      rw [hname] at hempty
      simp only [Option.getD_some] at hempty
      by_cases h0 : name = ""
      · subst h0
        simp [rawExtract, hname]
      · cases hs : r.shrsOrPrnAmt with
        | none =>
          simp [rawExtract, hname, h0, hv, hs, hempty,
            exceptBind_ok, exceptBind_error, exceptPure]
        | some st =>
          obtain ⟨s, hs2⟩ := Option.isSome_iff_exists.mp (hsh st hs)
          simp [rawExtract, hname, h0, hv, hs, hs2, hempty,
            exceptBind_ok, exceptBind_error, exceptPure]
  · intro name v sh ty s hname h0 hv hshr hs
    rw [parse_buildDoc_of_mem ns hns [r], rawParse_singleton r]
    have hne : ¬ name = "" := fun h => h0 (by rw [h]; rfl)
    simp [rawExtract, hname, hne, hv, hshr, hs, h0,
      exceptBind_ok, exceptBind_error, exceptPure]
  · intro name v hname h0 hv hshr
    rw [parse_buildDoc_of_mem ns hns [r], rawParse_singleton r]
    have hne : ¬ name = "" := fun h => h0 (by rw [h]; rfl)
    simp [rawExtract, hname, hne, hv, hshr, h0,
      exceptBind_ok, exceptBind_error, exceptPure]

/-- C7 witness: the spec scenario — value text `"1234"` yields
`valueUsd = 1234000`, with the remaining defaults as documented. -/
theorem parse_13f_xml_extraction_witness :
    parse_13f_xml (buildDoc ""
      [{ nameOfIssuer := some "APPLE INC", titleOfClass := none,
         cusip := none, value := some "1234",
         shrsOrPrnAmt := none, investmentDiscretion := none }]) = .ok
      [{ name := "APPLE INC", title := "COM", cusip := "",
         value := 1234000, shares := 0, shType := "SH",
         discretion := "SOLE", weight := 0 }] := by
  have := (parse_13f_xml_extraction "" (by decide)
    { nameOfIssuer := some "APPLE INC", titleOfClass := none,
      cusip := none, value := some "1234",
      shrsOrPrnAmt := none, investmentDiscretion := none }).2.2
    "APPLE INC" 1234 rfl (by decide) (by decide) rfl
  simpa using this

/-! ### EntityProcessor: `process_fund`

`process_fund` wraps the locate → resolve → fetch+parse sequence in one
`try/except`; its three network/parse interactions are an oracle.  `locate`
is the outcome of `get_latest_13f_url` (its fetch, JSON and indexing errors
all surface as a raised exception, captured as `Except.error` with the
exception's string); `resolve` is the `find_info_table_url` result, which
never raises and returns `""` for "not found"; `fetchParse` is the combined
outcome of `fetch_url(xml_url)` and `parse_13f_xml`.  The `fetched_at`
timestamp is outside the model (no claim mentions it). -/

/-- The registry metadata for one tracked entity (one `FUNDS` value). -/
structure FundInfo where
  name : String
  manager : String
  group : String
  tag : String
  emoji : String
  strategy : String
  return_2025 : Option Rat
deriving DecidableEq

/-- The per-entity result dict of `process_fund`. -/
structure EntityResult where
  cik : String
  name : String
  manager : String
  group : String
  tag : String
  emoji : String
  strategy : String
  return_2025 : Option Rat
  period : String
  total_value : Int
  num_holdings : Nat
  top_holdings : List Holding
  all_holdings : List Holding
  error : Option String
deriving DecidableEq

/-- Oracle for the three fallible interactions of `process_fund`. -/
structure ProcessEnv where
  locate : Except String (String × String × String)
  resolve : String
  fetchParse : Except String (List Holding)

/-- The initial result dict of `process_fund`. -/
def initResult (cik : String) (info : FundInfo) : EntityResult :=
  { cik := cik, name := info.name, manager := info.manager,
    group := info.group, tag := info.tag, emoji := info.emoji,
    strategy := info.strategy, return_2025 := info.return_2025,
    period := "", total_value := 0, num_holdings := 0,
    top_holdings := [], all_holdings := [], error := none }

/-- Descending order on `value` — `sort(key=value, reverse=True)`.  Python's
sort is stable, as is `insertionSort` for this total preorder, so the two
produce the same list. -/
def valueDesc (a b : Holding) : Prop := b.value ≤ a.value

instance : DecidableRel valueDesc :=
  fun a b => inferInstanceAs (Decidable (b.value ≤ a.value))

instance : IsTotal Holding valueDesc :=
  ⟨fun a b => le_total b.value a.value⟩

instance : IsTrans Holding valueDesc :=
  ⟨fun _ _ _ h1 h2 => le_trans h2 h1⟩

/-- `process_fund(cik, fund_info)` under the oracle `env`. -/
def process_fund (cik : String) (info : FundInfo) (env : ProcessEnv) :
    EntityResult :=
  let result := initResult cik info
  match env.locate with
  | .error e => { result with error := some e }
  | .ok (accession_raw, period, _accession_formatted) =>
    if accession_raw = "" then
      { result with error := some "No 13F filing found" }
    else
      let result := { result with period := period }
      let xml_url := env.resolve
      if xml_url = "" then
        { result with error := some "Could not find information table XML" }
      else
        match env.fetchParse with
        | .error e => { result with error := some e }
        | .ok holdings =>
          if holdings = [] then
            { result with error := some "No holdings parsed from XML" }
          else
            let total_value := (holdings.map (fun h => h.value)).sum
            let sorted := holdings.insertionSort valueDesc
            let weighted := sorted.map (fun h =>
              { h with weight :=
                  if total_value > 0 then
                    pyRound2 ((h.value : Rat) / (total_value : Rat) * 100)
                  else 0 })
            let top_holdings :=
              if info.group = "C" then weighted.take 10 else weighted.take 20
            { result with
              total_value := total_value,
              num_holdings := holdings.length,
              top_holdings := top_holdings,
              all_holdings := weighted.take 50 }

/-- C1: `process_fund` is a total function into `EntityResult` (it never
raises past its boundary — every oracle failure is captured in `error`), and
whenever `error` is set both position sequences are empty and both derived
totals are zero. -/
theorem process_fund_error_empty (cik : String) (info : FundInfo)
    (env : ProcessEnv) (h : (process_fund cik info env).error.isSome) :
    (process_fund cik info env).top_holdings = [] ∧
    (process_fund cik info env).all_holdings = [] ∧
    (process_fund cik info env).total_value = 0 ∧
    (process_fund cik info env).num_holdings = 0 := by
  rcases hl : env.locate with e | ⟨ar, period, af⟩
  · simp [process_fund, initResult, hl]
  · by_cases har : ar = ""
    · simp [process_fund, initResult, hl, har]
    · by_cases hx : env.resolve = ""
      · simp [process_fund, initResult, hl, har, hx]
      · rcases hf : env.fetchParse with e | holdings
        · simp [process_fund, initResult, hl, har, hx, hf]
        · by_cases hh : holdings = []
          · simp [process_fund, initResult, hl, har, hx, hf, hh]
          · exfalso
            simp [process_fund, initResult, hl, har, hx, hf, hh] at h

/-- C1 witness: a locate failure is captured and the sequences are empty. -/
theorem process_fund_error_empty_witness :
    (process_fund "1"
      { name := "F", manager := "M", group := "A", tag := "T",
        emoji := "E", strategy := "S", return_2025 := none }
      { locate := .error "boom", resolve := "",
        fetchParse := .error "unused" }).top_holdings = [] ∧
    (process_fund "1"
      { name := "F", manager := "M", group := "A", tag := "T",
        emoji := "E", strategy := "S", return_2025 := none }
      { locate := .error "boom", resolve := "",
        fetchParse := .error "unused" }).all_holdings = [] ∧
    (process_fund "1"
      { name := "F", manager := "M", group := "A", tag := "T",
        emoji := "E", strategy := "S", return_2025 := none }
      { locate := .error "boom", resolve := "",
        fetchParse := .error "unused" }).total_value = 0 ∧
    (process_fund "1"
      { name := "F", manager := "M", group := "A", tag := "T",
        emoji := "E", strategy := "S", return_2025 := none }
      { locate := .error "boom", resolve := "",
        fetchParse := .error "unused" }).num_holdings = 0 :=
  process_fund_error_empty "1"
    { name := "F", manager := "M", group := "A", tag := "T",
      emoji := "E", strategy := "S", return_2025 := none }
    { locate := .error "boom", resolve := "",
      fetchParse := .error "unused" } (by decide)

theorem sorted_weighted (holdings : List Holding) (f : Holding → Rat) :
    List.Sorted valueDesc ((holdings.insertionSort valueDesc).map
      (fun h => { h with weight := f h })) := by
  have hs : List.Sorted valueDesc (holdings.insertionSort valueDesc) :=
    List.sorted_insertionSort valueDesc holdings
  exact (List.pairwise_map).mpr (hs.imp (fun hab => hab))

/-- C5: for a successfully processed entity, `top_holdings` has length at
most 10 for the large multi-strategy category (group `"C"`) and at most 20
otherwise, `all_holdings` has length at most 50, and both sequences are
sorted non-increasing by `value`. -/
theorem process_fund_truncation_sorted (cik : String) (info : FundInfo)
    (env : ProcessEnv) (h : (process_fund cik info env).error = none) :
    (process_fund cik info env).top_holdings.length ≤
      (if info.group = "C" then 10 else 20) ∧
    (process_fund cik info env).all_holdings.length ≤ 50 ∧
    List.Sorted valueDesc (process_fund cik info env).top_holdings ∧
    List.Sorted valueDesc (process_fund cik info env).all_holdings := by
  rcases hl : env.locate with e | ⟨ar, period, af⟩
  · exfalso; simp [process_fund, initResult, hl] at h
  · by_cases har : ar = ""
    · exfalso; simp [process_fund, initResult, hl, har] at h
    · by_cases hx : env.resolve = ""
      · exfalso; simp [process_fund, initResult, hl, har, hx] at h
      · rcases hf : env.fetchParse with e | holdings
        · exfalso; simp [process_fund, initResult, hl, har, hx, hf] at h
        · by_cases hh : holdings = []
          · exfalso; simp [process_fund, initResult, hl, har, hx, hf, hh] at h
          · simp only [process_fund, initResult, hl, har, hx, hf, hh,
              if_neg, if_false]
            have hsw := sorted_weighted holdings (fun hld =>
              if (holdings.map (fun h2 => h2.value)).sum > 0 then
                pyRound2 ((hld.value : Rat) /
                  ((((holdings.map (fun h2 => h2.value)).sum : Int) : Rat))
                    * 100)
              else 0)
            refine ⟨?_, ?_, ?_, ?_⟩
            · by_cases hg : info.group = "C" <;>
                simp [hg, List.length_take_le]
            · simp [List.length_take_le]
            · by_cases hg : info.group = "C" <;>
                simp only [hg, if_pos, if_neg, if_true, if_false] <;>
                exact List.Pairwise.sublist (List.take_sublist _ _) hsw
            · exact List.Pairwise.sublist (List.take_sublist _ _) hsw

/-- A concrete holding, registry entry and successful oracle used by the
witnesses below. -/
def wHolding : Holding :=
  { name := "A", title := "COM", cusip := "X", value := 5, shares := 1,
    shType := "SH", discretion := "SOLE", weight := 0 }

/-- A non-multi-strategy registry entry for the witnesses. -/
def wInfoA : FundInfo :=
  { name := "F", manager := "M", group := "A", tag := "T", emoji := "E",
    strategy := "S", return_2025 := none }

/-- A large-multi-strategy (group `"C"`) registry entry for the witnesses. -/
def wInfoC : FundInfo :=
  { name := "G", manager := "M", group := "C", tag := "T", emoji := "E",
    strategy := "S", return_2025 := none }

/-- A fully successful oracle for the witnesses. -/
def wEnvOk : ProcessEnv :=
  { locate := .ok ("acc", "2024-12-31", "fmt"), resolve := "u",
    fetchParse := .ok [wHolding] }

/-- C5 witness: a one-holding success case for a non-`"C"` entity. -/
theorem process_fund_truncation_sorted_witness :
    (process_fund "1" wInfoA wEnvOk).top_holdings.length ≤
      (if wInfoA.group = "C" then 10 else 20) ∧
    (process_fund "1" wInfoA wEnvOk).all_holdings.length ≤ 50 ∧
    List.Sorted valueDesc (process_fund "1" wInfoA wEnvOk).top_holdings ∧
    List.Sorted valueDesc (process_fund "1" wInfoA wEnvOk).all_holdings :=
  process_fund_truncation_sorted "1" wInfoA wEnvOk rfl

/-- C10: for a successfully processed entity, `top_holdings` is a prefix of
`all_holdings` — both are initial segments of the same descending-sorted
weighted list, so each record of `top_holdings` appears in `all_holdings` at
the same index with identical field values. -/
theorem process_fund_top_prefix (cik : String) (info : FundInfo)
    (env : ProcessEnv) (h : (process_fund cik info env).error = none) :
    (process_fund cik info env).top_holdings =
      (process_fund cik info env).all_holdings.take
        (process_fund cik info env).top_holdings.length := by
  rcases hl : env.locate with e | ⟨ar, period, af⟩
  · exfalso; simp [process_fund, initResult, hl] at h
  · by_cases har : ar = ""
    · exfalso; simp [process_fund, initResult, hl, har] at h
    · by_cases hx : env.resolve = ""
      · exfalso; simp [process_fund, initResult, hl, har, hx] at h
      · rcases hf : env.fetchParse with e | holdings
        · exfalso; simp [process_fund, initResult, hl, har, hx, hf] at h
        · by_cases hh : holdings = []
          · exfalso; simp [process_fund, initResult, hl, har, hx, hf, hh] at h
          · simp only [process_fund, initResult, hl, har, hx, hf, hh,
              if_neg, if_false]
            by_cases hg : info.group = "C" <;>
              simp only [hg, if_pos, if_neg, if_true, if_false] <;>
              · rw [List.take_take, List.length_take]
                refine (List.take_eq_take).mpr ?_
                omega

/-- C10 witness: a one-holding success case for a group-`"C"` entity. -/
theorem process_fund_top_prefix_witness :
    (process_fund "2" wInfoC wEnvOk).top_holdings =
      (process_fund "2" wInfoC wEnvOk).all_holdings.take
        (process_fund "2" wInfoC wEnvOk).top_holdings.length :=
  process_fund_top_prefix "2" wInfoC wEnvOk rfl

/-! ### OverlapAnalyzer: `find_cross_fund_overlap`

The `stock_funds` dict is an association list keyed by the `cusip` field:
Python dicts preserve insertion order, so first sight of a key appends at
the end and updates keep the position.  `if fund.get("error"): continue`
skips a fund only when its error is a truthy (non-empty) string. -/

/-- One appended holder dict. -/
structure HolderEntry where
  fund : String
  manager : String
  value : Int
  shares : Int
  weight : Rat
deriving DecidableEq

/-- One accumulating `stock_funds[cusip]` value. -/
structure StockAcc where
  name : String
  cusip : String
  funds : List HolderEntry
  total_value : Int
deriving DecidableEq

/-- One emitted overlap record, after `fund_count`/`fund_names` are set. -/
structure StockOverlap where
  name : String
  cusip : String
  funds : List HolderEntry
  total_value : Int
  fund_count : Nat
  fund_names : List String
deriving DecidableEq

/-- Python truthiness of the `error` value. -/
def errTruthy : Option String → Bool
  | none => false
  | some s => s ≠ ""

/-- The holder dict appended for one holding of one fund. -/
def holderOf (fund : EntityResult) (h : Holding) : HolderEntry :=
  { fund := fund.name, manager := fund.manager, value := h.value,
    shares := h.shares, weight := h.weight }

/-- The loop body per holding: skip empty identifiers; create the entry on
first sight (`{name, cusip, funds: [], total_value: 0}`); append the holder
and add the value. -/
def addHolding (m : List StockAcc) (fund : EntityResult) (h : Holding) :
    List StockAcc :=
  if h.cusip = "" then m
  else if m.any (fun v => v.cusip == h.cusip) then
    m.map (fun v =>
      if v.cusip = h.cusip then
        { v with funds := v.funds ++ [holderOf fund h],
                 total_value := v.total_value + h.value }
      else v)
  else
    m ++ [{ name := h.name, cusip := h.cusip,
            funds := [holderOf fund h], total_value := 0 + h.value }]

/-- The accumulated `stock_funds` map over all funds. -/
def stockFunds (all_funds : List EntityResult) : List StockAcc :=
  all_funds.foldl (fun m fund =>
    if errTruthy fund.error then m
    else fund.all_holdings.foldl (fun m2 h => addHolding m2 fund h) m) []

/-- `sort(key=(-fund_count, -total_value))`: descending fund count, ties by
descending total value.  Python's sort is stable, as is `insertionSort` for
this total preorder. -/
def overlapDesc (a b : StockOverlap) : Prop :=
  b.fund_count < a.fund_count ∨
    (a.fund_count = b.fund_count ∧ b.total_value ≤ a.total_value)

instance : DecidableRel overlapDesc := fun _ _ =>
  inferInstanceAs (Decidable (_ ∨ _))

instance : IsTotal StockOverlap overlapDesc where
  total a b := by
    rcases Nat.lt_trichotomy a.fund_count b.fund_count with h | h | h
    · exact Or.inr (Or.inl h)
    · rcases le_total b.total_value a.total_value with ht | ht
      · exact Or.inl (Or.inr ⟨h, ht⟩)
      · exact Or.inr (Or.inr ⟨h.symm, ht⟩)
    · exact Or.inl (Or.inl h)

instance : IsTrans StockOverlap overlapDesc where
  trans a b c h1 h2 := by
    rcases h1 with h1 | ⟨h1e, h1t⟩ <;> rcases h2 with h2 | ⟨h2e, h2t⟩
    · exact Or.inl (by omega)
    · exact Or.inl (by omega)
    · exact Or.inl (by omega)
    · exact Or.inr ⟨h1e.trans h2e, le_trans h2t h1t⟩

/-- `find_cross_fund_overlap(all_funds)`: filter to keys with at least two
holder entries, set `fund_count`/`fund_names`, sort, return the top 30. -/
def find_cross_fund_overlap (all_funds : List EntityResult) :
    List StockOverlap :=
  let stock_funds := stockFunds all_funds
  let overlaps := (stock_funds.filter (fun v => 2 ≤ v.funds.length)).map
    (fun v => { name := v.name, cusip := v.cusip, funds := v.funds,
                total_value := v.total_value, fund_count := v.funds.length,
                fund_names := v.funds.map (fun f => f.fund) })
  (overlaps.insertionSort overlapDesc).take 30

/-- Number of holding entries bearing a given identifier across all
processed (non-errored) funds. -/
def entryCount : List EntityResult → String → Nat
  | [], _ => 0
  | fund :: rest, c =>
    (if errTruthy fund.error then 0
     else (fund.all_holdings.filter (fun h => h.cusip == c)).length) +
      entryCount rest c

/-- The keys of the accumulating map are pairwise distinct and non-empty. -/
def GoodMap (m : List StockAcc) : Prop :=
  List.Pairwise (fun a b => a.cusip ≠ b.cusip) m ∧ ∀ v ∈ m, v.cusip ≠ ""

/-- Number of holder entries stored at a key. -/
def keyCount (m : List StockAcc) (c : String) : Nat :=
  match m.find? (fun v => v.cusip == c) with
  | some v => v.funds.length
  | none => 0

theorem addHolding_good {m : List StockAcc} (fund : EntityResult)
    (h : Holding) (hm : GoodMap m) : GoodMap (addHolding m fund h) := by
  rw [addHolding]
  by_cases hc : h.cusip = ""
  · rw [if_pos hc]; exact hm
  · rw [if_neg hc]
    by_cases hany : m.any (fun v => v.cusip == h.cusip)
    · rw [if_pos hany]
      have hpres : ∀ v : StockAcc, (if v.cusip = h.cusip then
          { v with funds := v.funds ++ [holderOf fund h],
                   total_value := v.total_value + h.value }
        else v).cusip = v.cusip := by
        intro v
        by_cases hvc : v.cusip = h.cusip <;> simp [hvc]
      constructor
      · refine (List.pairwise_map).mpr (hm.1.imp ?_)
        intro a b hab
        rw [hpres, hpres]
        exact hab
      · intro w hw
        obtain ⟨v, hv, rfl⟩ := List.mem_map.mp hw
        have := hm.2 v hv
        by_cases hvc : v.cusip = h.cusip <;> simpa [hvc] using this
    · rw [if_neg hany]
      have hnotin : ∀ v ∈ m, v.cusip ≠ h.cusip := by
        intro v hv heq
        exact hany (List.any_eq_true.mpr ⟨v, hv, by simp [heq]⟩)
      constructor
      · refine List.pairwise_append.mpr
          ⟨hm.1, List.pairwise_singleton _ _, ?_⟩
        intro a ha b hb
        simp only [List.mem_singleton] at hb
        subst hb
        exact hnotin a ha
      · intro v hv
        rcases List.mem_append.mp hv with hv' | hv'
        · exact hm.2 v hv'
        · simp only [List.mem_singleton] at hv'
          subst hv'
          exact hc

theorem keyCount_addHolding (m : List StockAcc) (fund : EntityResult)
    (h : Holding) (c : String) (hc : ¬ c = "") :
    keyCount (addHolding m fund h) c =
      keyCount m c + (if h.cusip = c then 1 else 0) := by
  rw [addHolding]
  by_cases hcc : h.cusip = ""
  · rw [if_pos hcc]
    have hne : ¬ h.cusip = c := by rw [hcc]; exact fun e => hc e.symm
    simp [hne]
  · rw [if_neg hcc]
    by_cases hany : m.any (fun v => v.cusip == h.cusip)
    · rw [if_pos hany]
      have hfm : (m.map (fun v =>
          if v.cusip = h.cusip then
            { v with funds := v.funds ++ [holderOf fund h],
                     total_value := v.total_value + h.value }
          else v)).find? (fun v => v.cusip == c) =
          (m.find? (fun v => v.cusip == c)).map (fun v =>
            if v.cusip = h.cusip then
              { v with funds := v.funds ++ [holderOf fund h],
                       total_value := v.total_value + h.value }
            else v) := by
        rw [List.find?_map]
        have hpred : ((fun v : StockAcc => v.cusip == c) ∘ (fun v =>
            if v.cusip = h.cusip then
              { v with funds := v.funds ++ [holderOf fund h],
                       total_value := v.total_value + h.value }
            else v)) = (fun v : StockAcc => v.cusip == c) := by
          funext v
          by_cases hvc : v.cusip = h.cusip <;> simp [Function.comp, hvc]
        rw [hpred]
      rw [keyCount, keyCount, hfm]
      cases hf : m.find? (fun v => v.cusip == c) with
      | none =>
        by_cases hhc : h.cusip = c
        · exfalso
          obtain ⟨v, hv, hvc⟩ := List.any_eq_true.mp hany
          have : ¬ (v.cusip == c) = true :=
            List.find?_eq_none.mp hf v hv
          simp only [beq_iff_eq] at hvc this
          exact this (hvc.trans hhc)
        · simp [hhc]
      | some v =>
        have hvc : v.cusip = c := by
          have := List.find?_some hf
          simpa using this
        by_cases hhc : h.cusip = c
        · have : v.cusip = h.cusip := hvc.trans hhc.symm
          simp [this, hhc]
        · have : ¬ v.cusip = h.cusip := fun e => hhc (e.symm.trans hvc)
          simp [this, hhc]
    · rw [if_neg hany]
      have hnotin : ∀ v ∈ m, ¬ v.cusip = h.cusip := by
        intro v hv heq
        exact hany (List.any_eq_true.mpr ⟨v, hv, by simp [heq]⟩)
      rw [keyCount, keyCount, List.find?_append]
      by_cases hhc : h.cusip = c
      · have hnone : m.find? (fun v => v.cusip == c) = none :=
          List.find?_eq_none.mpr (fun v hv => by
            simp only [beq_iff_eq]
            exact fun e => hnotin v hv (e.trans hhc.symm))
        rw [hnone]
        simp [hhc]
      · have hnone2 :
            List.find? (fun v => v.cusip == c)
              [({ name := h.name, cusip := h.cusip,
                  funds := [holderOf fund h],
                  total_value := 0 + h.value } : StockAcc)] = none := by
          have hb : (h.cusip == c) = false := beq_eq_false_iff_ne.mpr hhc
          simp [List.find?, hb]
        rw [hnone2]
        simp [hhc]

theorem goodMap_foldl_holdings (fund : EntityResult) :
    ∀ (hs : List Holding) (m : List StockAcc), GoodMap m →
      GoodMap (hs.foldl (fun m2 h => addHolding m2 fund h) m) := by
  intro hs
  induction hs with
  | nil => intro m hm; exact hm
  | cons h rest ih =>
    intro m hm
    exact ih _ (addHolding_good fund h hm)

theorem keyCount_foldl_holdings (fund : EntityResult) :
    ∀ (hs : List Holding) (m : List StockAcc), ∀ c, ¬ c = "" →
      keyCount (hs.foldl (fun m2 h => addHolding m2 fund h) m) c =
        keyCount m c + (hs.filter (fun h => h.cusip == c)).length := by
  intro hs
  induction hs with
  | nil => intro m c hc; simp
  | cons h rest ih =>
    intro m c hc
    rw [List.foldl_cons, ih _ c hc, keyCount_addHolding m fund h c hc,
      List.filter_cons]
    by_cases hh : h.cusip = c <;> simp [hh] <;> omega

theorem goodMap_stockFunds_go :
    ∀ (funds : List EntityResult) (m : List StockAcc), GoodMap m →
      GoodMap (funds.foldl (fun m fund =>
        if errTruthy fund.error then m
        else fund.all_holdings.foldl (fun m2 h => addHolding m2 fund h) m)
        m) := by
  intro funds
  induction funds with
  | nil => intro m hm; exact hm
  | cons fund rest ih =>
    intro m hm
    rw [List.foldl_cons]
    by_cases he : errTruthy fund.error
    · rw [if_pos he]; exact ih m hm
    · rw [if_neg he]
      exact ih _ (goodMap_foldl_holdings fund fund.all_holdings m hm)

theorem keyCount_stockFunds_go :
    ∀ (funds : List EntityResult) (m : List StockAcc), ∀ c, ¬ c = "" →
      keyCount (funds.foldl (fun m fund =>
        if errTruthy fund.error then m
        else fund.all_holdings.foldl (fun m2 h => addHolding m2 fund h) m)
        m) c = keyCount m c + entryCount funds c := by
  intro funds
  induction funds with
  | nil => intro m c hc; simp [entryCount]
  | cons fund rest ih =>
    intro m c hc
    rw [List.foldl_cons, entryCount]
    by_cases he : errTruthy fund.error
    · rw [if_pos he, if_pos he, ih m c hc]
      omega
    · rw [if_neg he, if_neg he, ih _ c hc,
        keyCount_foldl_holdings fund fund.all_holdings m c hc]
      omega

theorem find?_goodMap (m : List StockAcc)
    (hm : List.Pairwise (fun a b => a.cusip ≠ b.cusip) m)
    (v : StockAcc) (hv : v ∈ m) :
    m.find? (fun w => w.cusip == v.cusip) = some v := by
  induction m with
  | nil => cases hv
  | cons a rest ih =>
    rcases List.mem_cons.mp hv with rfl | hv'
    · rw [List.find?_cons_of_pos _ (by simp)]
    · have ha : a.cusip ≠ v.cusip := (List.pairwise_cons.mp hm).1 v hv'
      rw [List.find?_cons_of_neg _ (by simp [ha])]
      exact ih (List.pairwise_cons.mp hm).2 hv'

theorem mem_stockFunds_count (all_funds : List EntityResult) (v : StockAcc)
    (hv : v ∈ stockFunds all_funds) :
    v.cusip ≠ "" ∧ v.funds.length = entryCount all_funds v.cusip := by
  have hgood : GoodMap (stockFunds all_funds) :=
    goodMap_stockFunds_go all_funds [] ⟨List.Pairwise.nil, by simp⟩
  have hcusip := hgood.2 v hv
  refine ⟨hcusip, ?_⟩
  have hk : keyCount (stockFunds all_funds) v.cusip = v.funds.length := by
    rw [keyCount, find?_goodMap _ hgood.1 v hv]
  have hall := keyCount_stockFunds_go all_funds [] v.cusip hcusip
  rw [show keyCount [] v.cusip = 0 from rfl] at hall
  rw [← hk]
  rw [show stockFunds all_funds = all_funds.foldl (fun m fund =>
    if errTruthy fund.error then m
    else fund.all_holdings.foldl (fun m2 h => addHolding m2 fund h) m) []
    from rfl]
  omega

/-- A single non-errored fund whose `all_holdings` lists the same security
identifier twice (e.g. two share classes reported under one CUSIP line
duplicated, which the code does not rule out). -/
def oneFund : EntityResult :=
  { cik := "1", name := "F", manager := "M", group := "A", tag := "T",
    emoji := "E", strategy := "S", return_2025 := none, period := "",
    total_value := 12, num_holdings := 2, top_holdings := [],
    all_holdings :=
      [{ name := "ACME", title := "COM", cusip := "X1", value := 5,
         shares := 1, shType := "SH", discretion := "SOLE", weight := 0 },
       { name := "ACME", title := "CL B", cusip := "X1", value := 7,
         shares := 2, shType := "SH", discretion := "SOLE", weight := 0 }],
    error := none }

/-- The record `find_cross_fund_overlap [oneFund]` emits. -/
def oneFundRecord : StockOverlap :=
  { name := "ACME", cusip := "X1",
    funds :=
      [{ fund := "F", manager := "M", value := 5, shares := 1, weight := 0 },
       { fund := "F", manager := "M", value := 7, shares := 2, weight := 0 }],
    total_value := 12, fund_count := 2, fund_names := ["F", "F"] }

/-- C4 counterexample: with a single processed (non-errored) entity holding
the identifier `"X1"` twice, the analyzer emits an overlap record for
`"X1"` — a security held by exactly one processed entity — because it
counts holder entries, not distinct entities. -/
theorem find_cross_fund_overlap_single_entity_cex :
    find_cross_fund_overlap [oneFund] = [oneFundRecord] ∧
    ([oneFund].filter (fun f =>
      !errTruthy f.error &&
        f.all_holdings.any (fun h => h.cusip == "X1"))).length = 1 := by
  constructor
  · decide
  · decide

/-- C4 (amended): every emitted record has `fund_count` equal to the length
of its holder-entry list and at least 2, no security appearing in exactly
one holding entry across all processed (non-errored) entities is ever
emitted (though a security whose two or more entries all come from a single
entity may be), the emitted records are sorted by holder count descending
with ties broken by total value descending, and at most 30 are returned. -/
theorem find_cross_fund_overlap_invariants (all_funds : List EntityResult) :
    (∀ rec ∈ find_cross_fund_overlap all_funds,
      rec.fund_count = rec.funds.length ∧ 2 ≤ rec.funds.length ∧
      2 ≤ entryCount all_funds rec.cusip) ∧
    List.Sorted overlapDesc (find_cross_fund_overlap all_funds) ∧
    (find_cross_fund_overlap all_funds).length ≤ 30 := by
  refine ⟨?_, ?_, ?_⟩
  · intro rec hrec
    rw [find_cross_fund_overlap] at hrec
    have hrec2 := List.take_subset _ _ hrec
    rw [List.mem_insertionSort] at hrec2
    obtain ⟨v, hvf, rfl⟩ := List.mem_map.mp hrec2
    obtain ⟨hvm, hvlen⟩ := List.mem_filter.mp hvf
    have hlen : 2 ≤ v.funds.length := by simpa using hvlen
    obtain ⟨hcusip, hcount⟩ := mem_stockFunds_count all_funds v hvm
    refine ⟨rfl, hlen, ?_⟩
    show 2 ≤ entryCount all_funds v.cusip
    rw [← hcount]
    exact hlen
  · rw [find_cross_fund_overlap]
    exact List.Pairwise.sublist (List.take_sublist _ _)
      (List.sorted_insertionSort overlapDesc _)
  · rw [find_cross_fund_overlap]
    exact List.length_take_le _ _

/-- C4 witness: the amended invariants applied to the emitted record of the
single-entity duplicate-identifier input. -/
theorem find_cross_fund_overlap_invariants_witness :
    oneFundRecord.fund_count = oneFundRecord.funds.length ∧
    2 ≤ oneFundRecord.funds.length ∧
    2 ≤ entryCount [oneFund] oneFundRecord.cusip :=
  (find_cross_fund_overlap_invariants [oneFund]).1 oneFundRecord (by decide)

end ThirteenF
